import Mathlib

/-!
Verification of the streaming terminal UI core of `code-assistant`
(crates/code_assistant/src/ui/terminal).

The Rust modules are shallowly embedded:
* `Chunking` — streaming/chunking.rs (`AdaptiveChunkingPolicy`)
* `Streaming` — streaming/mod.rs (`StreamState`), streaming/commit_tick.rs,
  streaming/markdown_stream.rs (`MarkdownStreamCollector`),
  streaming/controller.rs (`StreamingController`)
* `MessageModel` — message.rs (`ParameterValue`)
* `AppLoop` — app.rs (the Escape arm of the event loop)
* `Composer` — textarea.rs (`TextArea`) and input.rs (`InputManager`)
* `RendererCore` — renderer.rs (delta queueing and stream lifecycle)

Modelling conventions:
* `std::time::Instant` and `Duration` are both modelled as `Nat` milliseconds;
  `Instant::saturating_duration_since` is truncated `Nat` subtraction.
* Rust `String` is modelled as `List Char`; byte positions are modelled as
  character positions except where byte-level behaviour is what is at stake
  (`ParameterValue::get_display_value`), where UTF-8 byte counts are explicit.
* Functions that internally call `Instant::now()` take the current time as an
  explicit `now : Nat` argument.
* ratatui `Line` values are never inspected by the streaming code except for
  blankness, so rendered lines are an abstract type `L` together with an
  abstract renderer `render : List Char → Option Nat → List L` (standing for
  `render_markdown_lines`, whose substance lives in the external `tui_markdown`
  and `ratatui` crates) and a blankness predicate standing for
  `is_blank_line_spaces_only`.
-/

namespace Chunking

/-- chunking.rs: `ENTER_QUEUE_DEPTH_LINES`. -/
def enterQueueDepthLines : Nat := 8

/-- chunking.rs: `ENTER_OLDEST_AGE` (ms). -/
def enterOldestAge : Nat := 120

/-- chunking.rs: `EXIT_QUEUE_DEPTH_LINES`. -/
def exitQueueDepthLines : Nat := 2

/-- chunking.rs: `EXIT_OLDEST_AGE` (ms). -/
def exitOldestAge : Nat := 40

/-- chunking.rs: `EXIT_HOLD` (ms). -/
def exitHold : Nat := 250

/-- chunking.rs: `REENTER_CATCH_UP_HOLD` (ms). -/
def reenterCatchUpHold : Nat := 250

/-- chunking.rs: `SEVERE_QUEUE_DEPTH_LINES`. -/
def severeQueueDepthLines : Nat := 64

/-- chunking.rs: `SEVERE_OLDEST_AGE` (ms). -/
def severeOldestAge : Nat := 300

/-- chunking.rs: `enum ChunkingMode`. -/
inductive ChunkingMode where
  | smooth
  | catchUp
  deriving DecidableEq, Repr

/-- chunking.rs: `struct QueueSnapshot`. -/
structure QueueSnapshot where
  queuedLines : Nat
  oldestAge : Option Nat
  deriving DecidableEq, Repr

/-- chunking.rs: `enum DrainPlan`. -/
inductive DrainPlan where
  | single
  | batch (n : Nat)
  deriving DecidableEq, Repr

/-- chunking.rs: `struct ChunkingDecision`. -/
structure ChunkingDecision where
  mode : ChunkingMode
  enteredCatchUp : Bool
  drainPlan : DrainPlan
  deriving DecidableEq, Repr

/-- chunking.rs: `struct AdaptiveChunkingPolicy` (Default = Smooth, no timers). -/
structure AdaptiveChunkingPolicy where
  mode : ChunkingMode := .smooth
  belowExitThresholdSince : Option Nat := none
  lastCatchUpExitAt : Option Nat := none
  deriving DecidableEq, Repr

/-- chunking.rs: `fn should_enter_catch_up`. -/
def shouldEnterCatchUp (s : QueueSnapshot) : Bool :=
  s.queuedLines ≥ enterQueueDepthLines
    || s.oldestAge.any (fun oldest => oldest ≥ enterOldestAge)

/-- chunking.rs: `fn should_exit_catch_up`. -/
def shouldExitCatchUp (s : QueueSnapshot) : Bool :=
  s.queuedLines ≤ exitQueueDepthLines
    && s.oldestAge.any (fun oldest => oldest ≤ exitOldestAge)

/-- chunking.rs: `fn is_severe_backlog`. -/
def isSevereBacklog (s : QueueSnapshot) : Bool :=
  s.queuedLines ≥ severeQueueDepthLines
    || s.oldestAge.any (fun oldest => oldest ≥ severeOldestAge)

namespace AdaptiveChunkingPolicy

/-- chunking.rs: `AdaptiveChunkingPolicy::new` / `Default`. -/
def new : AdaptiveChunkingPolicy := {}

/-- chunking.rs: `AdaptiveChunkingPolicy::reset`. -/
def reset (_p : AdaptiveChunkingPolicy) : AdaptiveChunkingPolicy :=
  { mode := .smooth, belowExitThresholdSince := none, lastCatchUpExitAt := none }

/-- chunking.rs: `AdaptiveChunkingPolicy::note_catch_up_exit`. -/
def noteCatchUpExit (p : AdaptiveChunkingPolicy) (now : Nat) : AdaptiveChunkingPolicy :=
  if p.mode = .catchUp then { p with lastCatchUpExitAt := some now } else p

/-- chunking.rs: `AdaptiveChunkingPolicy::reentry_hold_active`. -/
def reentryHoldActive (p : AdaptiveChunkingPolicy) (now : Nat) : Bool :=
  p.lastCatchUpExitAt.any (fun exitAt => now - exitAt < reenterCatchUpHold)

/-- chunking.rs: `AdaptiveChunkingPolicy::maybe_enter_catch_up`.
Returns the updated policy and the `bool` the Rust method returns. -/
def maybeEnterCatchUp (p : AdaptiveChunkingPolicy) (s : QueueSnapshot) (now : Nat) :
    AdaptiveChunkingPolicy × Bool :=
  if ¬ shouldEnterCatchUp s then (p, false)
  else if p.reentryHoldActive now ∧ ¬ isSevereBacklog s then (p, false)
  else ({ mode := .catchUp, belowExitThresholdSince := none, lastCatchUpExitAt := none }, true)

/-- chunking.rs: `AdaptiveChunkingPolicy::maybe_exit_catch_up`. -/
def maybeExitCatchUp (p : AdaptiveChunkingPolicy) (s : QueueSnapshot) (now : Nat) :
    AdaptiveChunkingPolicy :=
  if ¬ shouldExitCatchUp s then { p with belowExitThresholdSince := none }
  else
    match p.belowExitThresholdSince with
    | some since =>
        if now - since ≥ exitHold then
          { p with mode := .smooth, belowExitThresholdSince := none,
                   lastCatchUpExitAt := some now }
        else p
    | none => { p with belowExitThresholdSince := some now }

/-- chunking.rs: `AdaptiveChunkingPolicy::decide`.
Returns the updated policy and the `ChunkingDecision`. -/
def decide (p : AdaptiveChunkingPolicy) (s : QueueSnapshot) (now : Nat) :
    AdaptiveChunkingPolicy × ChunkingDecision :=
  if s.queuedLines = 0 then
    let p1 := p.noteCatchUpExit now
    let p2 := { p1 with mode := .smooth, belowExitThresholdSince := none }
    (p2, { mode := p2.mode, enteredCatchUp := false, drainPlan := .single })
  else
    let step : AdaptiveChunkingPolicy × Bool :=
      match p.mode with
      | .smooth => p.maybeEnterCatchUp s now
      | .catchUp => (p.maybeExitCatchUp s now, false)
    let p1 := step.1
    let drainPlan : DrainPlan :=
      match p1.mode with
      | .smooth => .single
      | .catchUp => .batch (max s.queuedLines 1)
    (p1, { mode := p1.mode, enteredCatchUp := step.2, drainPlan := drainPlan })

end AdaptiveChunkingPolicy

end Chunking

namespace ChunkingProofs

open Chunking

/-- Concrete policy used by the C5 counterexample: the fresh policy after one
`decide` on snapshot (queued = 8, oldest = 10 ms) at t = 0; it is in CatchUp. -/
def policyAfterEnter : AdaptiveChunkingPolicy :=
  (AdaptiveChunkingPolicy.new.decide ⟨8, some 10⟩ 0).1

end ChunkingProofs

namespace Streaming

open Chunking

/-- The abstract rendering environment. `render` stands for
`markdown_stream.rs: render_markdown_lines(source, width)` — its substance is
the external `tui_markdown` parser plus ratatui `Paragraph` wrapping — and
`isBlank` stands for `is_blank_line_spaces_only`; the streaming code treats
rendered lines as opaque values otherwise. -/
structure RenderEnv (L : Type) where
  render : List Char → Option Nat → List L
  isBlank : L → Bool

/-- Index of the last `'\n'` in the buffer — `self.buffer.rfind('\n')`. -/
def rfindNewline : List Char → Option Nat
  | [] => none
  | c :: cs =>
    match rfindNewline cs with
    | some i => some (i + 1)
    | none => if c = '\n' then some 0 else none

/-- markdown_stream.rs: `struct MarkdownStreamCollector`. -/
structure MarkdownStreamCollector where
  buffer : List Char
  committedLineCount : Nat
  width : Option Nat
  deriving DecidableEq, Repr

namespace MarkdownStreamCollector

/-- markdown_stream.rs: `MarkdownStreamCollector::new`. -/
def new (width : Option Nat) : MarkdownStreamCollector :=
  { buffer := [], committedLineCount := 0, width := width }

/-- markdown_stream.rs: `MarkdownStreamCollector::clear`. -/
def clear (c : MarkdownStreamCollector) : MarkdownStreamCollector :=
  { c with buffer := [], committedLineCount := 0 }

/-- markdown_stream.rs: `MarkdownStreamCollector::set_width`. -/
def setWidth (c : MarkdownStreamCollector) (width : Option Nat) : MarkdownStreamCollector :=
  { c with width := width }

/-- markdown_stream.rs: `MarkdownStreamCollector::push_delta`. -/
def pushDelta (c : MarkdownStreamCollector) (delta : List Char) : MarkdownStreamCollector :=
  { c with buffer := c.buffer ++ delta }

/-- markdown_stream.rs: `MarkdownStreamCollector::current_tail`. -/
def currentTail (c : MarkdownStreamCollector) : List Char :=
  match rfindNewline c.buffer with
  | some index => c.buffer.drop (index + 1)
  | none => c.buffer

/-- The `complete_line_count` computed in `commit_complete_lines`: the rendered
line count, minus one when the final rendered line is blank. -/
def completeLineCount {L : Type} (env : RenderEnv L) (rendered : List L) : Nat :=
  match rendered.getLast? with
  | some lastLine => if env.isBlank lastLine then rendered.length - 1 else rendered.length
  | none => 0

/-- markdown_stream.rs: `MarkdownStreamCollector::commit_complete_lines`. -/
def commitCompleteLines {L : Type} (env : RenderEnv L) (c : MarkdownStreamCollector) :
    MarkdownStreamCollector × List L :=
  match rfindNewline c.buffer with
  | none => (c, [])
  | some lastNewlineIdx =>
    let source := c.buffer.take (lastNewlineIdx + 1)
    let rendered := env.render source c.width
    let complete := completeLineCount env rendered
    if c.committedLineCount ≥ complete then (c, [])
    else
      ({ c with committedLineCount := complete },
       (rendered.drop c.committedLineCount).take (complete - c.committedLineCount))

/-- The final `end` index computed by the strip-trailing-blank-lines loop of
`finalize_and_drain` (`while end > committed && is_blank(rendered[end-1])`). -/
def trimBlankEnd {L : Type} (isBlank : L → Bool) (committed : Nat) (rendered : List L) :
    Nat → Nat
  | 0 => 0
  | e + 1 =>
    if e + 1 > committed ∧ (rendered.get? e).any isBlank then
      trimBlankEnd isBlank committed rendered e
    else e + 1

/-- markdown_stream.rs: `MarkdownStreamCollector::finalize_and_drain`. -/
def finalizeAndDrain {L : Type} (env : RenderEnv L) (c : MarkdownStreamCollector) :
    MarkdownStreamCollector × List L :=
  let source :=
    if c.buffer.getLast? = some '\n' then c.buffer else c.buffer ++ ['\n']
  let rendered := env.render source c.width
  let e := trimBlankEnd env.isBlank c.committedLineCount rendered rendered.length
  let out :=
    if c.committedLineCount ≥ e then ([] : List L)
    else (rendered.drop c.committedLineCount).take (e - c.committedLineCount)
  (c.clear, out)

end MarkdownStreamCollector

/-- streaming/mod.rs: `struct QueuedLine`. -/
structure QueuedLine (L : Type) where
  line : L
  enqueuedAt : Nat
  deriving DecidableEq, Repr

/-- streaming/mod.rs: `struct StreamState`. -/
structure StreamState (L : Type) where
  collector : MarkdownStreamCollector
  queuedLines : List (QueuedLine L)
  hasSeenDelta : Bool
  deriving DecidableEq, Repr

namespace StreamState

/-- streaming/mod.rs: `StreamState::new`. -/
def new (L : Type) (width : Option Nat) : StreamState L :=
  { collector := .new width, queuedLines := [], hasSeenDelta := false }

/-- streaming/mod.rs: `StreamState::set_width`. -/
def setWidth {L : Type} (s : StreamState L) (width : Option Nat) : StreamState L :=
  { s with collector := s.collector.setWidth width }

/-- streaming/mod.rs: `StreamState::clear`. -/
def clear {L : Type} (s : StreamState L) : StreamState L :=
  { collector := s.collector.clear, queuedLines := [], hasSeenDelta := false }

/-- streaming/mod.rs: `StreamState::drain_n`. -/
def drainN {L : Type} (s : StreamState L) (maxLines : Nat) : StreamState L × List L :=
  let stop := min maxLines s.queuedLines.length
  ({ s with queuedLines := s.queuedLines.drop stop },
   (s.queuedLines.take stop).map (·.line))

/-- streaming/mod.rs: `StreamState::drain_all`. -/
def drainAll {L : Type} (s : StreamState L) : StreamState L × List L :=
  ({ s with queuedLines := [] }, s.queuedLines.map (·.line))

/-- streaming/mod.rs: `StreamState::queued_len`. -/
def queuedLen {L : Type} (s : StreamState L) : Nat :=
  s.queuedLines.length

/-- streaming/mod.rs: `StreamState::oldest_queued_age`. -/
def oldestQueuedAge {L : Type} (s : StreamState L) (now : Nat) : Option Nat :=
  s.queuedLines.head?.map (fun queued => now - queued.enqueuedAt)

/-- streaming/mod.rs: `StreamState::enqueue` (the internal `Instant::now()` is
the explicit `now` argument). -/
def enqueue {L : Type} (s : StreamState L) (lines : List L) (now : Nat) : StreamState L :=
  { s with queuedLines := s.queuedLines ++ lines.map (fun line => ⟨line, now⟩) }

end StreamState

/-- commit_tick.rs: `struct CommitTickOutput`. -/
structure CommitTickOutput (L : Type) where
  textLines : List L
  thinkingLines : List L
  deriving DecidableEq, Repr

/-- commit_tick.rs: `fn max_duration`. -/
def maxDuration : Option Nat → Option Nat → Option Nat
  | some left, some right => some (max left right)
  | some left, none => some left
  | none, some right => some right
  | none, none => none

/-- commit_tick.rs: `fn stream_queue_snapshot`. -/
def streamQueueSnapshot {L : Type} (textState thinkingState : StreamState L) (now : Nat) :
    QueueSnapshot :=
  { queuedLines := textState.queuedLen + thinkingState.queuedLen,
    oldestAge := maxDuration (textState.oldestQueuedAge now) (thinkingState.oldestQueuedAge now) }

/-- commit_tick.rs: `fn apply_commit_tick_plan`.
Returns the two updated stream states and the `CommitTickOutput`. -/
def applyCommitTickPlan {L : Type} (drainPlan : DrainPlan)
    (textState thinkingState : StreamState L) :
    StreamState L × StreamState L × CommitTickOutput L :=
  let textStep :=
    match drainPlan with
    | .single => textState.drainN 1
    | .batch maxLines => textState.drainN (max maxLines 1)
  let thinkingStep :=
    match drainPlan with
    | .single => thinkingState.drainN 1
    | .batch maxLines => thinkingState.drainN (max maxLines 1)
  (textStep.1, thinkingStep.1,
   { textLines := textStep.2, thinkingLines := thinkingStep.2 })

/-- commit_tick.rs: `fn run_commit_tick`. Returns the updated policy, the two
updated stream states and the `CommitTickOutput`. -/
def runCommitTick {L : Type} (policy : AdaptiveChunkingPolicy)
    (textState thinkingState : StreamState L) (now : Nat) :
    AdaptiveChunkingPolicy × StreamState L × StreamState L × CommitTickOutput L :=
  let snapshot := streamQueueSnapshot textState thinkingState now
  let decision := policy.decide snapshot now
  let applied := applyCommitTickPlan decision.2.drainPlan textState thinkingState
  (decision.1, applied)

/-- controller.rs: `enum StreamKind`. -/
inductive StreamKind where
  | text
  | thinking
  deriving DecidableEq, Repr

/-- controller.rs: `struct StreamingController`. -/
structure StreamingController (L : Type) where
  textState : StreamState L
  thinkingState : StreamState L
  policy : AdaptiveChunkingPolicy
  deriving DecidableEq, Repr

/-- controller.rs: `struct DrainedLines`. -/
structure DrainedLines (L : Type) where
  text : List L
  thinking : List L
  deriving DecidableEq, Repr

namespace StreamingController

/-- controller.rs: `StreamingController::new`. -/
def new (L : Type) : StreamingController L :=
  { textState := .new L none, thinkingState := .new L none, policy := .new }

/-- controller.rs: `StreamingController::clear`. -/
def clear {L : Type} (c : StreamingController L) : StreamingController L :=
  { textState := c.textState.clear, thinkingState := c.thinkingState.clear,
    policy := c.policy.reset }

/-- controller.rs: `StreamingController::set_width`. -/
def setWidth {L : Type} (c : StreamingController L) (width : Option Nat) :
    StreamingController L :=
  { c with textState := c.textState.setWidth width,
           thinkingState := c.thinkingState.setWidth width }

/-- controller.rs: `StreamingController::state` (shared read accessor). -/
def state {L : Type} (c : StreamingController L) (kind : StreamKind) : StreamState L :=
  match kind with
  | .text => c.textState
  | .thinking => c.thinkingState

/-- Write back the per-kind state (the `state_mut` access pattern). -/
def withState {L : Type} (c : StreamingController L) (kind : StreamKind)
    (s : StreamState L) : StreamingController L :=
  match kind with
  | .text => { c with textState := s }
  | .thinking => { c with thinkingState := s }

/-- controller.rs: `StreamingController::push`. -/
def push {L : Type} (env : RenderEnv L) (c : StreamingController L) (kind : StreamKind)
    (content : List Char) (now : Nat) : StreamingController L :=
  if content = [] then c
  else
    let s := c.state kind
    let s := { s with hasSeenDelta := true, collector := s.collector.pushDelta content }
    let s :=
      if content.contains '\n' then
        let step := s.collector.commitCompleteLines env
        let s := { s with collector := step.1 }
        if step.2.isEmpty then s else s.enqueue step.2 now
      else s
    c.withState kind s

/-- controller.rs: `StreamingController::tail_text`. -/
def tailText {L : Type} (c : StreamingController L) (kind : StreamKind) : List Char :=
  (c.state kind).collector.currentTail

/-- controller.rs: `StreamingController::has_seen_any_delta`. -/
def hasSeenAnyDelta {L : Type} (c : StreamingController L) : Bool :=
  c.textState.hasSeenDelta || c.thinkingState.hasSeenDelta

/-- controller.rs: `StreamingController::flush_kind`. -/
def flushKind {L : Type} (env : RenderEnv L) (c : StreamingController L)
    (kind : StreamKind) (now : Nat) : StreamingController L × List L :=
  let s := c.state kind
  let finalized := s.collector.finalizeAndDrain env
  let s := { s with collector := finalized.1 }
  let s := if finalized.2.isEmpty then s else s.enqueue finalized.2 now
  let drained := s.drainAll
  (c.withState kind drained.1, drained.2)

/-- controller.rs: `StreamingController::flush_pending_at`. -/
def flushPending {L : Type} (env : RenderEnv L) (c : StreamingController L) (now : Nat) :
    StreamingController L × DrainedLines L :=
  let textFinalized := c.textState.collector.finalizeAndDrain env
  let textState := { c.textState with collector := textFinalized.1 }
  let textState :=
    if textFinalized.2.isEmpty then textState else textState.enqueue textFinalized.2 now
  let thinkingFinalized := c.thinkingState.collector.finalizeAndDrain env
  let thinkingState := { c.thinkingState with collector := thinkingFinalized.1 }
  let thinkingState :=
    if thinkingFinalized.2.isEmpty then thinkingState
    else thinkingState.enqueue thinkingFinalized.2 now
  let textDrained := textState.drainAll
  let thinkingDrained := thinkingState.drainAll
  ({ textState := textDrained.1, thinkingState := thinkingDrained.1,
     policy := c.policy.reset },
   { text := textDrained.2, thinking := thinkingDrained.2 })

/-- controller.rs: `StreamingController::drain_commit_tick_at`. -/
def drainCommitTickAt {L : Type} (c : StreamingController L) (now : Nat) :
    StreamingController L × DrainedLines L :=
  let r := runCommitTick c.policy c.textState c.thinkingState now
  ({ textState := r.2.1, thinkingState := r.2.2.1, policy := r.1 },
   { text := r.2.2.2.textLines, thinking := r.2.2.2.thinkingLines })

end StreamingController

end Streaming

namespace StreamingProofs

open Chunking Streaming

/-- A concrete stream state over `L := Nat` holding one queued line, used by
the C4 counterexample: fresh collector, a single line enqueued at t = 0. -/
def oneLineState (line : Nat) : StreamState Nat :=
  { collector := .new none, queuedLines := [⟨line, 0⟩], hasSeenDelta := true }

/-- A sequence of `push_delta` calls. -/
def applyDeltas (c : MarkdownStreamCollector) : List (List Char) → MarkdownStreamCollector
  | [] => c
  | d :: ds => applyDeltas (c.pushDelta d) ds

/-- A concrete rendering environment over `L := Nat` for witnesses: each
rendered line is represented by the source length, nothing is blank. -/
def envN : RenderEnv Nat :=
  { render := fun source _ => [source.length], isBlank := fun _ => false }

/-- Concrete collector whose buffer holds no newline. -/
def collNoNewline : MarkdownStreamCollector :=
  { buffer := ['a', 'b'], committedLineCount := 0, width := none }

/-- Concrete collector whose buffer holds a newline. -/
def collWithNewline : MarkdownStreamCollector :=
  { buffer := ['a', '\n', 'b'], committedLineCount := 0, width := none }

end StreamingProofs

namespace MessageModel

/-- `str::trim` — used only through emptiness tests. -/
def trimChars (l : List Char) : List Char :=
  ((l.dropWhile Char.isWhitespace).reverse.dropWhile Char.isWhitespace).reverse

/-- ui::ToolStatus. -/
inductive ToolStatus where
  | pending
  | running
  | success
  | error
  deriving DecidableEq, Repr

/-- message.rs: `struct PlainTextBlock`. -/
structure PlainTextBlock where
  content : List Char
  deriving DecidableEq, Repr

/-- message.rs: `struct ThinkingBlock` (its `start_time : Instant` is modelled
as `Nat` milliseconds). -/
structure ThinkingBlock where
  content : List Char
  startTime : Nat
  deriving DecidableEq, Repr

/-- message.rs: `struct ToolUseBlock` (the `IndexMap` of parameters is an
insertion-ordered association list). -/
structure ToolUseBlock where
  name : List Char
  id : List Char
  parameters : List (List Char × List Char)
  status : ToolStatus
  statusMessage : Option (List Char)
  output : Option (List Char)
  deriving DecidableEq, Repr

/-- message.rs: `enum MessageBlock`. -/
inductive MessageBlock where
  | plainText (block : PlainTextBlock)
  | thinking (block : ThinkingBlock)
  | toolUse (block : ToolUseBlock)
  | userText (block : PlainTextBlock)
  deriving DecidableEq, Repr

/-- message.rs: `MessageBlock::has_content`. -/
def MessageBlock.hasContent : MessageBlock → Bool
  | .plainText block => !(trimChars block.content).isEmpty
  | .thinking block => !(trimChars block.content).isEmpty
  | .toolUse block => !block.name.isEmpty
  | .userText block => !(trimChars block.content).isEmpty

/-- message.rs: `struct LiveMessage`. -/
structure LiveMessage where
  blocks : List MessageBlock
  finalized : Bool
  streamedToScrollback : Bool
  deriving DecidableEq, Repr

namespace LiveMessage

/-- message.rs: `LiveMessage::new`. -/
def new : LiveMessage :=
  { blocks := [], finalized := false, streamedToScrollback := false }

/-- message.rs: `LiveMessage::has_content`. -/
def hasContent (m : LiveMessage) : Bool :=
  !m.blocks.isEmpty && m.blocks.any MessageBlock.hasContent

end LiveMessage

/-- transcript.rs: `struct TranscriptState`. -/
structure TranscriptState where
  committedMessages : List LiveMessage
  committedRenderedCount : Nat
  activeMessage : Option LiveMessage
  deriving DecidableEq, Repr

namespace TranscriptState

/-- transcript.rs: `TranscriptState::new`. -/
def new : TranscriptState :=
  { committedMessages := [], committedRenderedCount := 0, activeMessage := none }

/-- transcript.rs: `TranscriptState::finalize_active_if_content`. -/
def finalizeActiveIfContent (ts : TranscriptState) : TranscriptState :=
  match ts.activeMessage with
  | some current =>
    let current := { current with finalized := true }
    { ts with
      activeMessage := none,
      committedMessages :=
        if current.hasContent then ts.committedMessages ++ [current]
        else ts.committedMessages }
  | none => ts

/-- transcript.rs: `TranscriptState::start_active_message`. -/
def startActiveMessage (ts : TranscriptState) : TranscriptState :=
  { ts.finalizeActiveIfContent with activeMessage := some LiveMessage.new }

end TranscriptState

/-- UTF-8 byte length of a string modelled as a character list
(`str::len` in Rust counts bytes). -/
def utf8Len (s : List Char) : Nat :=
  (s.map Char.utf8Size).sum

/-- The characters occupying the first `n` UTF-8 bytes of the string, or
`none` when byte index `n` is not a character boundary (or lies past the end)
— the cases in which the Rust byte slice `&value[..n]` panics. -/
def takeUtf8Bytes : Nat → List Char → Option (List Char)
  | 0, _ => some []
  | _ + 1, [] => none
  | n + 1, c :: cs =>
    if c.utf8Size ≤ n + 1 then
      (takeUtf8Bytes (n + 1 - c.utf8Size) cs).map (fun taken => c :: taken)
    else none

/-- message.rs: `ParameterValue::get_display_value`. The Rust body is
`if self.value.len() > 100 { format!("{}...", &self.value[..97]) } else { clone }`;
the byte slice `&self.value[..97]` panics when byte 97 is not a character
boundary, modelled as `none`. -/
def getDisplayValue (value : List Char) : Option (List Char) :=
  if utf8Len value > 100 then
    (takeUtf8Bytes 97 value).map (fun truncated => truncated ++ ("...".data))
  else some value

/-- The C10 failing input: 96 one-byte characters followed by four two-byte
characters — 104 bytes in total, with byte 97 falling inside a character. -/
def c10FailingValue : List Char :=
  List.replicate 96 'a' ++ ['é', 'é', 'é', 'é']

end MessageModel

namespace AppLoop

/-- Modelled from the spec: `SessionActivityState` lives in
session/instance.rs, outside the embedded tree; the Escape arm only
distinguishes Idle ("No agent is currently running.") from every other
state. -/
inductive SessionActivityState where
  | idle
  | running
  deriving DecidableEq, Repr

/-- The state read and written by the Escape arm of the event loop in app.rs:
the renderer's current-error flag, the app-state's info message, activity
state and current session id, and the process-wide cancel flag. -/
structure AppEscState where
  hasError : Bool
  infoMessage : Option (List Char)
  activityState : Option SessionActivityState
  currentSessionId : Option (List Char)
  cancelFlag : Bool
  deriving DecidableEq, Repr

/-- app.rs event_loop: literal info message on cancellation. -/
def cancellationRequestedMsg : List Char := "Cancellation requested...".data

/-- app.rs event_loop: literal info message when the session is Idle. -/
def noAgentRunningMsg : List Char := "No agent is currently running.".data

/-- app.rs: the `KeyEventResult::Escape` arm of `event_loop` (lines 110-162):
dismiss the error if one is shown, else clear the info message if set, else —
when a session id exists — set the cancel flag and write the info message
("No agent is currently running." when the activity state is Idle,
"Cancellation requested..." otherwise). -/
def handleEscape (s : AppEscState) : AppEscState :=
  if s.hasError then { s with hasError := false }
  else if s.infoMessage.isSome then { s with infoMessage := none }
  else
    match s.currentSessionId with
    | some _ =>
      let s1 := { s with cancelFlag := true }
      if s1.activityState = some .idle then
        { s1 with infoMessage := some noAgentRunningMsg }
      else
        { s1 with infoMessage := some cancellationRequestedMsg }
    | none => s

end AppLoop

namespace Composer

/-!
textarea.rs. Positions are modelled in characters rather than UTF-8 bytes:
every character position is a boundary, so `clamp_pos_to_char_boundary` is
truncation to the text length, a grapheme-cursor step is one character, and
`unicode_width` display widths are approximated as one column per character
(`charDisplayWidth`). The wrap cache (`wrap_cache : RefCell<Option<WrapCache>>`)
is omitted: it starts out `None`, every mutating operation resets it to `None`,
and none of the operations modelled here populate it (only rendering and
height queries do), so `move_cursor_up`/`move_cursor_down` always take their
logical-line fallback paths.
-/

/-- textarea.rs: `struct TextElement` (`range.end` is called `stop`). -/
structure TextElement where
  start : Nat
  stop : Nat
  deriving DecidableEq, Repr

/-- textarea.rs: `struct TextArea` (without the derived wrap cache, see the
section comment). -/
structure TextArea where
  text : List Char
  cursorPos : Nat
  preferredCol : Option Nat
  killBuffer : List Char
  elements : List TextElement
  deriving DecidableEq, Repr

/-- textarea.rs: `WORD_SEPARATORS` (backtick, caret, braces and quotes written
via `Char.ofNat`: 96 backtick, 94 caret, 123/125 braces, 39 apostrophe,
34 double quote). -/
def wordSeparators : List Char :=
  [Char.ofNat 96, '~', '!', '@', '#', '$', '%', Char.ofNat 94, '&', '*', '(', ')',
   '-', '=', '+', '[', Char.ofNat 123, ']', Char.ofNat 125, '\\', '|', ';', ':',
   Char.ofNat 39, Char.ofNat 34, ',', '.', '<', '>', '/', '?']

/-- textarea.rs: `fn is_word_separator`. -/
def isWordSeparator (ch : Char) : Bool :=
  wordSeparators.contains ch

/-- Display width of one character (unicode-width approximated as one column
per character; see the section comment). -/
def charDisplayWidth (_ch : Char) : Nat := 1

/-- Display width of a string (`UnicodeWidthStr::width`). -/
def displayWidth (l : List Char) : Nat :=
  (l.map charDisplayWidth).sum

/-- Index of the first `'\n'` — `str::find('\n')`. -/
def findNewlineIdx : List Char → Option Nat
  | [] => none
  | c :: cs => if c = '\n' then some 0 else (findNewlineIdx cs).map (· + 1)

namespace TextArea

/-- textarea.rs: `TextArea::new`. -/
def new : TextArea :=
  { text := [], cursorPos := 0, preferredCol := none, killBuffer := [], elements := [] }

/-- textarea.rs: `TextArea::clear`. -/
def clear (_t : TextArea) : TextArea := new

/-- textarea.rs: the element-containment test of `find_element_containing`
(`pos > e.range.start && pos < e.range.end`). -/
def containsPos (e : TextElement) (pos : Nat) : Bool :=
  pos > e.start && pos < e.stop

/-- textarea.rs: `TextArea::find_element_containing` (returns the element
itself rather than its index). -/
def findElementContaining (elements : List TextElement) (pos : Nat) : Option TextElement :=
  elements.find? (fun e => containsPos e pos)

/-- textarea.rs: `TextArea::clamp_pos_to_char_boundary` — in the character
model every position up to the length is a boundary. -/
def clampPosToCharBoundary (t : TextArea) (pos : Nat) : Nat :=
  min pos t.text.length

/-- textarea.rs: `TextArea::clamp_pos_to_nearest_boundary`. -/
def clampPosToNearestBoundary (t : TextArea) (pos : Nat) : Nat :=
  let pos := t.clampPosToCharBoundary pos
  match findElementContaining t.elements pos with
  | some e => if pos - e.start ≤ e.stop - pos then e.start else e.stop
  | none => pos

/-- textarea.rs: `TextArea::clamp_pos_for_insertion`. -/
def clampPosForInsertion (t : TextArea) (pos : Nat) : Nat :=
  let pos := min (t.clampPosToCharBoundary pos) t.text.length
  match findElementContaining t.elements pos with
  | some e => if pos - e.start ≤ e.stop - pos then e.start else e.stop
  | none => pos

/-- textarea.rs: `TextArea::adjust_pos_out_of_elements`. -/
def adjustPosOutOfElements (t : TextArea) (pos : Nat) (preferStart : Bool) : Nat :=
  match findElementContaining t.elements pos with
  | some e => if preferStart then e.start else e.stop
  | none => pos

/-- textarea.rs: `TextArea::shift_elements`: drop elements fully covered by
the edit, keep those before it, translate those after it by the length
difference, and snap overlapping ones to the new bounds. -/
def shiftElements (elements : List TextElement) (at_ removed inserted : Nat) :
    List TextElement :=
  let stop := at_ + removed
  (elements.filter (fun e => !(decide (e.start ≥ at_) && decide (e.stop ≤ stop)))).map
    (fun e =>
      if e.stop ≤ at_ then e
      else if e.start ≥ stop then
        ({ start := e.start + inserted - removed,
           stop := e.stop + inserted - removed } : TextElement)
      else
        ({ start := min at_ e.start,
           stop := at_ + max inserted (e.stop - stop) } : TextElement))

/-- One pass of the fixpoint loop in
`TextArea::expand_range_to_element_boundaries`. -/
def expandOnePass (elements : List TextElement) (r : Nat × Nat) : Nat × Nat :=
  elements.foldl
    (fun r e =>
      if e.start < r.2 ∧ e.stop > r.1 then (min r.1 e.start, max r.2 e.stop) else r)
    r

/-- The fixpoint loop of `expand_range_to_element_boundaries`, fueled. -/
def expandLoop (elements : List TextElement) : Nat → (Nat × Nat) → Nat × Nat
  | 0, r => r
  | fuel + 1, r =>
    let r2 := expandOnePass elements r
    if r2 = r then r else expandLoop elements fuel r2

/-- textarea.rs: `TextArea::expand_range_to_element_boundaries`. The Rust
`loop` runs to a fixpoint; each changing pass strictly grows the set of fully
covered elements, so `elements.length + 1` passes reach the fixpoint (proved
in `expandLoop_fixpoint`). -/
def expandRangeToElementBoundaries (elements : List TextElement) (r : Nat × Nat) :
    Nat × Nat :=
  expandLoop elements (elements.length + 1) r

/-- textarea.rs: `TextArea::replace_range`. -/
def replaceRange (t : TextArea) (rStart rStop : Nat) (repl : List Char) : TextArea :=
  let r := expandRangeToElementBoundaries t.elements (rStart, rStop)
  let start := min r.1 t.text.length
  let stop := min r.2 t.text.length
  if start > stop then t
  else
    let removedLen := stop - start
    let insertedLen := repl.length
    let text := t.text.take start ++ repl ++ t.text.drop stop
    let elements := shiftElements t.elements start removedLen insertedLen
    let cursorPos :=
      if t.cursorPos < start then t.cursorPos
      else if t.cursorPos ≤ stop then start + insertedLen
      else t.cursorPos + insertedLen - removedLen
    let cursorPos := min cursorPos text.length
    let t2 : TextArea :=
      { t with text := text, preferredCol := none, elements := elements,
               cursorPos := cursorPos }
    { t2 with cursorPos := t2.clampPosToNearestBoundary cursorPos }

/-- textarea.rs: `TextArea::insert_str_at`. -/
def insertStrAt (t : TextArea) (pos : Nat) (s : List Char) : TextArea :=
  let pos := t.clampPosForInsertion pos
  { t with
    text := t.text.take pos ++ s ++ t.text.drop pos,
    cursorPos := if pos ≤ t.cursorPos then t.cursorPos + s.length else t.cursorPos,
    elements := shiftElements t.elements pos 0 s.length,
    preferredCol := none }

/-- textarea.rs: `TextArea::insert_str`. -/
def insertStr (t : TextArea) (s : List Char) : TextArea :=
  t.insertStrAt t.cursorPos s

/-- textarea.rs: `TextArea::insert_element`. Rust's `sort_by_key` is a stable
sort; it is modelled with the (stable, structurally recursive) insertion
sort. -/
def insertElement (t : TextArea) (s : List Char) : TextArea :=
  let start := t.clampPosForInsertion t.cursorPos
  let stop := start + s.length
  let elements := shiftElements t.elements start 0 s.length
  let elements :=
    (elements ++ [({ start := start, stop := stop } : TextElement)]).insertionSort
      (fun a b => a.start ≤ b.start)
  { t with
    text := t.text.take start ++ s ++ t.text.drop start,
    elements := elements,
    cursorPos := stop,
    preferredCol := none }

/-- textarea.rs: `TextArea::set_cursor`. -/
def setCursor (t : TextArea) (pos : Nat) : TextArea :=
  { t with cursorPos := t.clampPosToNearestBoundary (min pos t.text.length),
           preferredCol := none }

/-- textarea.rs: `TextArea::beginning_of_line`. -/
def beginningOfLine (t : TextArea) (pos : Nat) : Nat :=
  match Streaming.rfindNewline (t.text.take pos) with
  | some i => i + 1
  | none => 0

/-- textarea.rs: `TextArea::beginning_of_current_line`. -/
def beginningOfCurrentLine (t : TextArea) : Nat :=
  t.beginningOfLine t.cursorPos

/-- textarea.rs: `TextArea::end_of_line`. -/
def endOfLine (t : TextArea) (pos : Nat) : Nat :=
  match findNewlineIdx (t.text.drop pos) with
  | some i => i + pos
  | none => t.text.length

/-- textarea.rs: `TextArea::end_of_current_line`. -/
def endOfCurrentLine (t : TextArea) : Nat :=
  t.endOfLine t.cursorPos

/-- textarea.rs: `TextArea::current_display_col`. -/
def currentDisplayCol (t : TextArea) : Nat :=
  displayWidth ((t.text.take t.cursorPos).drop t.beginningOfCurrentLine)

/-- textarea.rs: `TextArea::prev_atomic_boundary` (the grapheme-cursor step is
one character in this model). -/
def prevAtomicBoundary (t : TextArea) (pos : Nat) : Nat :=
  if pos = 0 then 0
  else
    match t.elements.find? (fun e => decide (pos > e.start) && decide (pos ≤ e.stop)) with
    | some e => e.start
    | none =>
      let b := pos - 1
      match findElementContaining t.elements b with
      | some e => e.start
      | none => b

/-- textarea.rs: `TextArea::next_atomic_boundary` (the grapheme-cursor step is
one character in this model). -/
def nextAtomicBoundary (t : TextArea) (pos : Nat) : Nat :=
  if pos ≥ t.text.length then t.text.length
  else
    match t.elements.find? (fun e => decide (pos ≥ e.start) && decide (pos < e.stop)) with
    | some e => e.stop
    | none =>
      let b := pos + 1
      match findElementContaining t.elements b with
      | some e => e.stop
      | none => b

/-- textarea.rs: `TextArea::move_cursor_left`. -/
def moveCursorLeft (t : TextArea) : TextArea :=
  { t with cursorPos := t.prevAtomicBoundary t.cursorPos, preferredCol := none }

/-- textarea.rs: `TextArea::move_cursor_right`. -/
def moveCursorRight (t : TextArea) : TextArea :=
  { t with cursorPos := t.nextAtomicBoundary t.cursorPos, preferredCol := none }

/-- The scan position of the loop body of
`TextArea::move_to_display_col_on_line`: index of the first character of the
line slice whose cumulative width exceeds the target column. -/
def findColIdxAux (targetCol : Nat) : List Char → Nat → Nat → Option Nat
  | [], _, _ => none
  | c :: rest, idx, widthSoFar =>
    let width2 := widthSoFar + charDisplayWidth c
    if width2 > targetCol then some idx else findColIdxAux targetCol rest (idx + 1) width2

/-- textarea.rs: `TextArea::move_to_display_col_on_line`. -/
def moveToDisplayColOnLine (t : TextArea) (lineStart lineEnd targetCol : Nat) : TextArea :=
  match findColIdxAux targetCol ((t.text.take lineEnd).drop lineStart) 0 0 with
  | some i => { t with cursorPos := t.clampPosToNearestBoundary (lineStart + i) }
  | none => { t with cursorPos := lineEnd }

/-- textarea.rs: `TextArea::move_cursor_up`. Since the wrap cache is `None`
throughout (see the section comment), this is the logical-line fallback. -/
def moveCursorUp (t : TextArea) : TextArea :=
  match Streaming.rfindNewline (t.text.take t.cursorPos) with
  | some prevNl =>
    let targetCol := t.preferredCol.getD t.currentDisplayCol
    let t1 := { t with preferredCol := some targetCol }
    let prevLineStart :=
      match Streaming.rfindNewline (t.text.take prevNl) with
      | some i => i + 1
      | none => 0
    t1.moveToDisplayColOnLine prevLineStart prevNl targetCol
  | none => { t with cursorPos := 0, preferredCol := none }

/-- textarea.rs: `TextArea::move_cursor_down` (logical-line fallback, see
`moveCursorUp`). -/
def moveCursorDown (t : TextArea) : TextArea :=
  let targetCol := t.preferredCol.getD t.currentDisplayCol
  let t1 := { t with preferredCol := some targetCol }
  match findNewlineIdx (t.text.drop t.cursorPos) with
  | some i =>
    let nextNl := i + t.cursorPos
    let nextLineStart := nextNl + 1
    let nextLineEnd :=
      match findNewlineIdx (t.text.drop nextLineStart) with
      | some j => j + nextLineStart
      | none => t.text.length
    t1.moveToDisplayColOnLine nextLineStart nextLineEnd targetCol
  | none => { t1 with cursorPos := t.text.length, preferredCol := none }

/-- textarea.rs: `TextArea::move_cursor_to_beginning_of_line`. -/
def moveCursorToBeginningOfLine (t : TextArea) : TextArea :=
  let t1 := t.setCursor t.beginningOfCurrentLine
  { t1 with preferredCol := none }

/-- textarea.rs: `TextArea::move_cursor_to_end_of_line`. -/
def moveCursorToEndOfLine (t : TextArea) : TextArea :=
  t.setCursor t.endOfCurrentLine

/-- The backward scan of `beginning_of_previous_word`: the Rust loop walks the
run of same-class non-whitespace characters leftwards from the end of `l` and
stops one past the first mismatch, which is the length of `l` minus the length
of its trailing run. -/
def wordScanBack (isSep : Bool) (l : List Char) : Nat :=
  l.length -
    (l.reverse.takeWhile
      (fun ch => !ch.isWhitespace && (isWordSeparator ch == isSep))).length

/-- textarea.rs: `TextArea::beginning_of_previous_word`. -/
def beginningOfPreviousWord (t : TextArea) : Nat :=
  let pfx := t.text.take t.cursorPos
  match pfx.reverse.findIdx? (fun ch => !ch.isWhitespace) with
  | none => 0
  | some revIdx =>
    let firstNonWsIdx := pfx.length - 1 - revIdx
    let ch := (pfx[firstNonWsIdx]?).getD ' '
    let isSep := isWordSeparator ch
    t.adjustPosOutOfElements (wordScanBack isSep (pfx.take firstNonWsIdx)) true

/-- textarea.rs: `TextArea::end_of_next_word`. -/
def endOfNextWord (t : TextArea) : Nat :=
  let rest := t.text.drop t.cursorPos
  match rest.findIdx? (fun ch => !ch.isWhitespace) with
  | none => t.text.length
  | some firstNonWs =>
    let wordStart := t.cursorPos + firstNonWs
    let ch := (t.text[wordStart]?).getD ' '
    let isSep := isWordSeparator ch
    let stop :=
      match (t.text.drop (wordStart + 1)).findIdx?
          (fun c2 => c2.isWhitespace || (isWordSeparator c2 != isSep)) with
      | some j => wordStart + 1 + j
      | none => t.text.length
    t.adjustPosOutOfElements stop false

/-- textarea.rs: `TextArea::kill_range`. -/
def killRange (t : TextArea) (rStart rStop : Nat) : TextArea :=
  let r := expandRangeToElementBoundaries t.elements (rStart, rStop)
  if r.1 ≥ r.2 then t
  else
    let removed := (t.text.take r.2).drop r.1
    if removed = [] then t
    else
      let t1 := { t with killBuffer := removed }
      t1.replaceRange r.1 r.2 []

/-- textarea.rs: the `for _ in 0..n` loop of `delete_backward`: step the
target left through atomic boundaries, stopping early at 0. -/
def stepsPrev (t : TextArea) : Nat → Nat → Nat
  | 0, target => target
  | k + 1, target =>
    let target2 := t.prevAtomicBoundary target
    if target2 = 0 then target2 else stepsPrev t k target2

/-- textarea.rs: the loop of `delete_forward`, stopping early at the end. -/
def stepsNext (t : TextArea) : Nat → Nat → Nat
  | 0, target => target
  | k + 1, target =>
    let target2 := t.nextAtomicBoundary target
    if target2 ≥ t.text.length then target2 else stepsNext t k target2

/-- textarea.rs: `TextArea::delete_backward`. -/
def deleteBackward (t : TextArea) (n : Nat) : TextArea :=
  if n = 0 ∨ t.cursorPos = 0 then t
  else t.replaceRange (stepsPrev t n t.cursorPos) t.cursorPos []

/-- textarea.rs: `TextArea::delete_forward`. -/
def deleteForward (t : TextArea) (n : Nat) : TextArea :=
  if n = 0 ∨ t.cursorPos ≥ t.text.length then t
  else t.replaceRange t.cursorPos (stepsNext t n t.cursorPos) []

/-- textarea.rs: `TextArea::delete_backward_word`. -/
def deleteBackwardWord (t : TextArea) : TextArea :=
  t.killRange t.beginningOfPreviousWord t.cursorPos

/-- textarea.rs: `TextArea::delete_forward_word`. -/
def deleteForwardWord (t : TextArea) : TextArea :=
  let stop := t.endOfNextWord
  if stop > t.cursorPos then t.killRange t.cursorPos stop else t

/-- textarea.rs: `TextArea::kill_to_end_of_line`. -/
def killToEndOfLine (t : TextArea) : TextArea :=
  let eol := t.endOfCurrentLine
  if t.cursorPos = eol then
    if eol < t.text.length then t.killRange t.cursorPos (eol + 1) else t
  else t.killRange t.cursorPos eol

/-- textarea.rs: `TextArea::kill_to_beginning_of_line`. -/
def killToBeginningOfLine (t : TextArea) : TextArea :=
  let bol := t.beginningOfCurrentLine
  if t.cursorPos = bol then
    if bol > 0 then t.killRange (bol - 1) bol else t
  else t.killRange bol t.cursorPos

/-- textarea.rs: `TextArea::yank`. -/
def yank (t : TextArea) : TextArea :=
  if t.killBuffer = [] then t else t.insertStr t.killBuffer

end TextArea

/-- The public operations quantified over by the element-boundary claim. -/
inductive Op where
  | insertStr (s : List Char)
  | insertElement (s : List Char)
  | replaceRange (start stop : Nat) (repl : List Char)
  | setCursor (pos : Nat)
  | moveLeft
  | moveRight
  | moveUp
  | moveDown
  | moveBOL
  | moveEOL
  | wordLeft
  | wordRight
  | deleteBackward (n : Nat)
  | deleteForward (n : Nat)
  | deleteBackwardWord
  | deleteForwardWord
  | killToEOL
  | killToBOL
  | yank
  deriving DecidableEq, Repr

/-- Apply one public operation (`wordLeft`/`wordRight` are the Alt-b / Alt-f
bindings, which call `set_cursor` on the word boundary). -/
def applyOp (t : TextArea) : Op → TextArea
  | .insertStr s => t.insertStr s
  | .insertElement s => t.insertElement s
  | .replaceRange start stop repl => t.replaceRange start stop repl
  | .setCursor pos => t.setCursor pos
  | .moveLeft => t.moveCursorLeft
  | .moveRight => t.moveCursorRight
  | .moveUp => t.moveCursorUp
  | .moveDown => t.moveCursorDown
  | .moveBOL => t.moveCursorToBeginningOfLine
  | .moveEOL => t.moveCursorToEndOfLine
  | .wordLeft => t.setCursor t.beginningOfPreviousWord
  | .wordRight => t.setCursor t.endOfNextWord
  | .deleteBackward n => t.deleteBackward n
  | .deleteForward n => t.deleteForward n
  | .deleteBackwardWord => t.deleteBackwardWord
  | .deleteForwardWord => t.deleteForwardWord
  | .killToEOL => t.killToEndOfLine
  | .killToBOL => t.killToBeginningOfLine
  | .yank => t.yank

/-- Apply a sequence of public operations. -/
def applyOps (t : TextArea) : List Op → TextArea
  | [] => t
  | op :: ops => applyOps (applyOp t op) ops

/-!
input.rs: `InputManager`. The model carries the fields that the paste path
touches (`textarea`, `pending_pastes`, `large_paste_counters`,
`image_counter`); clipboard-image attachments and the slash-command processor
are not touched by `handle_paste`/`build_submit_content` and are omitted.
-/

/-- input.rs: `LARGE_PASTE_CHAR_THRESHOLD`. -/
def largePasteCharThreshold : Nat := 200

/-- Fueled body of `str::replace`: replace non-overlapping occurrences of
`pat` left to right. A fuel of `s.length` suffices because every step consumes
at least one character when `pat` is nonempty. -/
def replaceAllAux (pat repl : List Char) : Nat → List Char → List Char
  | 0, s => s
  | _ + 1, [] => []
  | fuel + 1, c :: rest =>
    if pat.isPrefixOf (c :: rest) then
      repl ++ replaceAllAux pat repl fuel ((c :: rest).drop pat.length)
    else c :: replaceAllAux pat repl fuel rest

/-- Rust `str::replace(pat, repl)` for the nonempty patterns this code uses
(an empty pattern is returned unchanged; the source never passes one). -/
def replaceAll (pat repl s : List Char) : List Char :=
  if pat = [] then s else replaceAllAux pat repl s.length s

/-- `str::lines().count()` on a CR-free string: one line per `'\n'`, plus a
final line when the string does not end in `'\n'`; zero for the empty
string. -/
def linesCount (s : List Char) : Nat :=
  if s = [] then 0
  else s.count '\n' + (if s.getLast? = some '\n' then 0 else 1)

/-- input.rs `handle_paste`: `pasted.replace("\r\n", "\n").replace('\r', "\n")`. -/
def normalizeNewlines (s : List Char) : List Char :=
  replaceAll ['\r'] ['\n'] (replaceAll ['\r', '\n'] ['\n'] s)

/-- Decimal rendering of a number, as a character list. -/
def natToChars (n : Nat) : List Char :=
  (Nat.repr n).data

/-- input.rs: the placeholder strings built by `next_large_paste_placeholder`:
`[Pasted N lines]` for the first paste with a given line count, and
`[Pasted N lines] #k` for collisions. -/
def largePastePlaceholder (lineCount counter : Nat) : List Char :=
  if counter = 1 then
    ("[Pasted ".data) ++ natToChars lineCount ++ (" lines]".data)
  else
    ("[Pasted ".data) ++ natToChars lineCount ++ (" lines] #".data) ++ natToChars counter

/-- input.rs: `struct InputManager` (see the section comment). -/
structure InputManager where
  textarea : TextArea
  pendingPastes : List (List Char × List Char)
  largePasteCounters : List (Nat × Nat)
  imageCounter : Nat
  deriving DecidableEq, Repr

/-- `self.large_paste_counters.entry(line_count).or_insert(0); *counter += 1`
on the counter map, modelled as an association list; returns the updated map
and the bumped counter. -/
def bumpCounter (m : List (Nat × Nat)) (key : Nat) : List (Nat × Nat) × Nat :=
  match m.lookup key with
  | some v =>
    (m.map (fun kv => if kv.1 = key then (kv.1, v + 1) else kv), v + 1)
  | none => (m ++ [(key, 1)], 1)

namespace InputManager

/-- input.rs: `InputManager::new`. -/
def new : InputManager :=
  { textarea := TextArea.new, pendingPastes := [], largePasteCounters := [],
    imageCounter := 0 }

/-- input.rs: `InputManager::next_large_paste_placeholder`. -/
def nextLargePastePlaceholder (im : InputManager) (lineCount : Nat) :
    InputManager × List Char :=
  let step := bumpCounter im.largePasteCounters lineCount
  ({ im with largePasteCounters := step.1 },
   largePastePlaceholder lineCount step.2)

/-- input.rs: `InputManager::handle_paste`. -/
def handlePaste (im : InputManager) (pasted : List Char) : InputManager :=
  let pasted := normalizeNewlines pasted
  let charCount := pasted.length
  if charCount > largePasteCharThreshold then
    let lineCount := linesCount pasted
    let step := im.nextLargePastePlaceholder lineCount
    let im2 := step.1
    { im2 with
      textarea := im2.textarea.insertElement step.2,
      pendingPastes := im2.pendingPastes ++ [(step.2, pasted)] }
  else
    { im with textarea := im.textarea.insertStr pasted }

/-- input.rs: `InputManager::build_submit_content`. -/
def buildSubmitContent (im : InputManager) : List Char :=
  let raw := im.textarea.text
  if im.pendingPastes.isEmpty then raw
  else im.pendingPastes.foldl (fun result kv => replaceAll kv.1 kv.2 result) raw

end InputManager

/-- The C6 counterexample paste: 200 `'a'` characters followed by CRLF — the
original paste is 202 characters, its normalized form 201. -/
def c6Paste : List Char :=
  List.replicate 200 'a' ++ ['\r', '\n']

/-- Two element ranges occupy disjoint (possibly touching) spans. -/
def elemDisj (a b : TextElement) : Prop :=
  a.stop ≤ b.start ∨ b.stop ≤ a.start

/-- The textarea state invariant maintained by every public operation whose
`insert_element` payloads are newline-free: the cursor is within the text,
element ranges end within the text, element spans contain no newline, element
ranges are pairwise disjoint, and the cursor is never strictly inside an
element range. -/
structure Inv (t : TextArea) : Prop where
  cursorLe : t.cursorPos ≤ t.text.length
  wfStop : ∀ e ∈ t.elements, e.stop ≤ t.text.length
  noNl : ∀ e ∈ t.elements, ∀ i, e.start ≤ i → i < e.stop → t.text[i]? ≠ some '\n'
  disj : t.elements.Pairwise elemDisj
  cursorOut : ∀ e ∈ t.elements, ¬(e.start < t.cursorPos ∧ t.cursorPos < e.stop)

/-- The operation sequence of the C7 counterexample: an element whose payload
holds a newline, one appended character, then cursor-up. -/
def c7Ops : List Op :=
  [.insertElement ['A', '\n', 'B'], .insertStr ['x'], .moveUp]

/-- A concrete operation sequence with a newline-free element payload, used
as the witness input for the amended element-boundary claim. -/
def c7WitnessOps : List Op :=
  [.insertElement ['X'], .insertStr ['y'], .moveUp, .moveLeft]

/-- Number of elements fully covered by a range — the termination measure of
the fixpoint loop in `expand_range_to_element_boundaries`. -/
def containedCount (elements : List TextElement) (r : Nat × Nat) : Nat :=
  (elements.filter (fun e => decide (r.1 ≤ e.start) && decide (e.stop ≤ r.2))).length

end Composer

/-
Renderer core (renderer.rs): the delta protocol path of `TerminalRenderer` —
`queue_text_delta`, `queue_thinking_delta`, `start_new_message` and their
callees.  Ratatui `Line` values stay abstract in the type parameter `L`;
the external per-line operations (`style_thinking_lines`' span restyling,
`indent_lines`' two-space prefix, and `Line::from("")`) are abstracted into a
`RendererEnv` extending the streaming `RenderEnv`.  Every internal
`Instant::now()` is an explicit `now : Nat` argument.  `TerminalRenderer`
fields that the embedded path neither reads nor writes (composer, plan state,
error/info messages, hidden-tool tracking, last known width, pending user
message) are omitted.
-/
namespace RendererCore

open Streaming MessageModel

/-- renderer.rs: `enum SpinnerState` (`Instant` as `Nat` milliseconds). -/
inductive SpinnerState where
  | hidden
  | loading (startTime : Nat)
  | rateLimit (startTime : Nat) (secondsRemaining : Nat)
  deriving DecidableEq, Repr

/-- Abstraction of the external ratatui line-level operations used by
renderer.rs, extending the streaming rendering environment: the per-line
restyling applied by `style_thinking_lines`, the per-line two-space prefix
applied by `indent_lines`, and the empty separator line `Line::from("")`. -/
structure RendererEnv (L : Type) extends RenderEnv L where
  styleThinkingLine : L → L
  indentLine : L → L
  blankLine : L

/-- renderer.rs: `style_thinking_lines` (maps the external restyling over the
lines). -/
def styleThinkingLines {L : Type} (env : RendererEnv L) (thinking : List L) : List L :=
  thinking.map env.styleThinkingLine

/-- renderer.rs: `indent_lines`. -/
def indentLines {L : Type} (env : RendererEnv L) (lines : List L) : List L :=
  lines.map env.indentLine

/-- renderer.rs: `stream_kind_for_block`. -/
def streamKindForBlock : MessageBlock → Option StreamKind
  | .plainText _ => some .text
  | .thinking _ => some .thinking
  | .toolUse _ => none
  | .userText _ => none

/-- renderer.rs: `block_for_stream_kind` (`ThinkingBlock::new` reads
`Instant::now()`, passed as `now`). -/
def blockForStreamKind (kind : StreamKind) (content : List Char) (now : Nat) :
    Option MessageBlock :=
  match kind with
  | .text =>
    if content.isEmpty then none
    else some (.plainText { content := content })
  | .thinking =>
    if (trimChars content).isEmpty then none
    else some (.thinking { content := content, startTime := now })

/-- renderer.rs: `build_stream_blocks_for_live_message`. -/
def buildStreamBlocksForLiveMessage (existingBlocks : List MessageBlock)
    (textContent thinkingContent : List Char) (lastStreamKind : Option StreamKind)
    (now : Nat) : List MessageBlock :=
  let order := existingBlocks.filterMap streamKindForBlock
  let order :=
    if order.isEmpty then
      match lastStreamKind with
      | some .text =>
        let order := if !(trimChars thinkingContent).isEmpty then
          order ++ [StreamKind.thinking] else order
        if !textContent.isEmpty then order ++ [StreamKind.text] else order
      | some .thinking =>
        let order := if !textContent.isEmpty then order ++ [StreamKind.text] else order
        if !(trimChars thinkingContent).isEmpty then
          order ++ [StreamKind.thinking] else order
      | none =>
        let order := if !textContent.isEmpty then order ++ [StreamKind.text] else order
        if !(trimChars thinkingContent).isEmpty then
          order ++ [StreamKind.thinking] else order
    else
      let order := if !textContent.isEmpty && !order.contains StreamKind.text then
        order ++ [StreamKind.text] else order
      if !(trimChars thinkingContent).isEmpty && !order.contains StreamKind.thinking then
        order ++ [StreamKind.thinking] else order
  order.filterMap (fun kind =>
    blockForStreamKind kind
      (match kind with
       | .text => textContent
       | .thinking => thinkingContent) now)

/-- renderer.rs: `merge_blocks_preserving_stream_slots` (each existing stream
slot is replaced by the next new stream block, an exhausted iterator drops the
slot, and remaining stream blocks are appended at the end). -/
def mergeBlocksPreservingStreamSlots :
    List MessageBlock → List MessageBlock → List MessageBlock
  | [], streamBlocks => streamBlocks
  | block :: rest, streamBlocks =>
    match streamKindForBlock block with
    | some _ =>
      match streamBlocks with
      | next :: streamRest => next :: mergeBlocksPreservingStreamSlots rest streamRest
      | [] => mergeBlocksPreservingStreamSlots rest []
    | none => block :: mergeBlocksPreservingStreamSlots rest streamBlocks

/-- renderer.rs: `struct TerminalRenderer` restricted to the fields the delta
protocol path reads or writes. -/
structure TerminalRenderer (L : Type) where
  transcript : TranscriptState
  overlayActive : Bool
  deferredHistoryLines : List L
  pendingHistoryLines : List L
  streamingController : StreamingController L
  streamingOpen : Bool
  lastStreamKind : Option StreamKind
  spinnerState : SpinnerState

namespace TerminalRenderer

/-- renderer.rs: `TerminalRenderer::new` (the modelled fields). -/
def new (L : Type) : TerminalRenderer L :=
  { transcript := TranscriptState.new,
    overlayActive := false,
    deferredHistoryLines := [],
    pendingHistoryLines := [],
    streamingController := StreamingController.new L,
    streamingOpen := false,
    lastStreamKind := none,
    spinnerState := SpinnerState.hidden }

/-- renderer.rs: `TerminalRenderer::insert_or_defer_history_lines`. -/
def insertOrDeferHistoryLines {L : Type} (r : TerminalRenderer L) (lines : List L) :
    TerminalRenderer L :=
  if lines.isEmpty then r
  else if r.overlayActive then
    { r with deferredHistoryLines := r.deferredHistoryLines ++ lines }
  else
    { r with pendingHistoryLines := r.pendingHistoryLines ++ lines }

/-- The inline update pattern of renderer.rs that sets
`streamed_to_scrollback = true` on the active message when one exists. -/
def markActiveStreamedToScrollback {L : Type} (r : TerminalRenderer L) :
    TerminalRenderer L :=
  match r.transcript.activeMessage with
  | some msg =>
    { r with transcript :=
        { r.transcript with
          activeMessage := some { msg with streamedToScrollback := true } } }
  | none => r

/-- renderer.rs: `TerminalRenderer::apply_drained_lines`. -/
def applyDrainedLines {L : Type} (env : RendererEnv L) (r : TerminalRenderer L)
    (drained : DrainedLines L) : TerminalRenderer L :=
  let hasLines := !drained.text.isEmpty || !drained.thinking.isEmpty
  let r :=
    if drained.text.isEmpty then r
    else r.insertOrDeferHistoryLines (indentLines env drained.text)
  let r :=
    if drained.thinking.isEmpty then r
    else r.insertOrDeferHistoryLines (indentLines env (styleThinkingLines env drained.thinking))
  if r.streamingOpen && hasLines then r.markActiveStreamedToScrollback else r

/-- renderer.rs: `TerminalRenderer::ensure_active_message`. -/
def ensureActiveMessage {L : Type} (r : TerminalRenderer L) : TerminalRenderer L :=
  if r.transcript.activeMessage.isNone then
    { r with transcript := r.transcript.startActiveMessage }
  else r

/-- renderer.rs: `TerminalRenderer::sync_live_stream_tails`. -/
def syncLiveStreamTails {L : Type} (r : TerminalRenderer L) (now : Nat) :
    TerminalRenderer L :=
  let textTail := r.streamingController.tailText .text
  let thinkingTail := r.streamingController.tailText .thinking
  if textTail.isEmpty && thinkingTail.isEmpty then
    if r.streamingController.hasSeenAnyDelta then
      match r.transcript.activeMessage with
      | some liveMessage =>
        { r with transcript :=
            { r.transcript with
              activeMessage := some
                { liveMessage with
                  blocks := liveMessage.blocks.filter
                    (fun block => (streamKindForBlock block).isNone) } } }
      | none => r
    else r
  else
    let r := r.ensureActiveMessage
    match r.transcript.activeMessage with
    | none => r
    | some liveMessage =>
      let streamBlocks := buildStreamBlocksForLiveMessage liveMessage.blocks
        textTail thinkingTail r.lastStreamKind now
      if streamBlocks.isEmpty then r
      else
        { r with transcript :=
            { r.transcript with
              activeMessage := some
                { liveMessage with
                  blocks := mergeBlocksPreservingStreamSlots liveMessage.blocks
                    streamBlocks } } }

/-- renderer.rs: `TerminalRenderer::start_new_message`. -/
def startNewMessage {L : Type} (env : RendererEnv L) (r : TerminalRenderer L)
    (now : Nat) : TerminalRenderer L :=
  let pending := r.streamingController.flushPending env.toRenderEnv now
  let r := { r with streamingController := pending.1 }
  let r := applyDrainedLines env r pending.2
  let r := r.syncLiveStreamTails now
  let r := { r with spinnerState := SpinnerState.loading now }
  let r := { r with streamingController := r.streamingController.clear }
  let r := { r with lastStreamKind := none }
  let r := { r with transcript := r.transcript.startActiveMessage }
  { r with streamingOpen := true }

/-- renderer.rs: `TerminalRenderer::queue_text_delta`.  The Rust early return
of the dropped-delta branch is the `none` case of `entry`. -/
def queueTextDelta {L : Type} (env : RendererEnv L) (r : TerminalRenderer L)
    (content : List Char) (now : Nat) : TerminalRenderer L :=
  let entry : Option (TerminalRenderer L) :=
    if !r.streamingOpen then
      if r.transcript.activeMessage.isNone then some (startNewMessage env r now)
      else none
    else some r
  match entry with
  | none => r
  | some r =>
    let r :=
      if r.lastStreamKind = some StreamKind.thinking then
        let flushed := r.streamingController.flushKind env.toRenderEnv .thinking now
        let r := { r with streamingController := flushed.1 }
        if flushed.2.isEmpty then r
        else
          let lines := styleThinkingLines env flushed.2
          let r := r.insertOrDeferHistoryLines (indentLines env lines)
          let r := r.insertOrDeferHistoryLines [env.blankLine]
          r.markActiveStreamedToScrollback
      else r
    let r := { r with lastStreamKind := some StreamKind.text }
    { r with streamingController :=
        r.streamingController.push env.toRenderEnv .text content now }

/-- renderer.rs: `TerminalRenderer::queue_thinking_delta`. -/
def queueThinkingDelta {L : Type} (env : RendererEnv L) (r : TerminalRenderer L)
    (content : List Char) (now : Nat) : TerminalRenderer L :=
  let entry : Option (TerminalRenderer L) :=
    if !r.streamingOpen then
      if r.transcript.activeMessage.isNone then some (startNewMessage env r now)
      else none
    else some r
  match entry with
  | none => r
  | some r =>
    let r :=
      if r.lastStreamKind = some StreamKind.text then
        let flushed := r.streamingController.flushKind env.toRenderEnv .text now
        let r := { r with streamingController := flushed.1 }
        if flushed.2.isEmpty then r
        else
          let r := r.insertOrDeferHistoryLines (indentLines env flushed.2)
          let r := r.insertOrDeferHistoryLines [env.blankLine]
          r.markActiveStreamedToScrollback
      else r
    let r := { r with lastStreamKind := some StreamKind.thinking }
    { r with streamingController :=
        r.streamingController.push env.toRenderEnv .thinking content now }

/-- Dispatch of a delta of either kind to its queueing function. -/
def queueDelta {L : Type} (env : RendererEnv L) (r : TerminalRenderer L)
    (kind : StreamKind) (content : List Char) (now : Nat) : TerminalRenderer L :=
  match kind with
  | .text => queueTextDelta env r content now
  | .thinking => queueThinkingDelta env r content now

end TerminalRenderer

/-- A concrete renderer environment over `L := Nat` for witnesses, extending
the concrete streaming environment. -/
def renvN : RendererEnv Nat :=
  { toRenderEnv := StreamingProofs.envN,
    styleThinkingLine := id, indentLine := id, blankLine := 0 }

end RendererCore

/-! ## Theorems -/

namespace ChunkingProofs

open Chunking

/-- **C3.** Adaptive chunking policy hysteresis trace: starting fresh in Smooth,
`decide (queued = 8, oldest = 10 ms)` at t = 0 returns CatchUp with plan
Batch 8; `decide (1, 10 ms)` at t = 50 ms still returns CatchUp; `decide
(1, 10 ms)` at t = 350 ms returns Smooth (the exit condition having been held
since t = 50 for 300 ms ≥ EXIT_HOLD). -/
theorem c3_hysteresis_trace :
    let s0 : AdaptiveChunkingPolicy := AdaptiveChunkingPolicy.new
    let r1 := s0.decide ⟨8, some 10⟩ 0
    let r2 := r1.1.decide ⟨1, some 10⟩ 50
    let r3 := r2.1.decide ⟨1, some 10⟩ 350
    r1.2.mode = .catchUp ∧ r1.2.drainPlan = .batch 8 ∧
    r2.2.mode = .catchUp ∧
    r3.2.mode = .smooth ∧ r3.2.drainPlan = .single := by
  decide

/-- **C5 counterexample.** The claim says a `decide` call with
`queued_lines = 0` leaves *all* internal timers cleared. At the concrete
input: policy in CatchUp (after entering at t = 0), snapshot (0, none) at
t = 10, the re-entry-hold timestamp afterwards holds `some 10`, not no value
(`note_catch_up_exit` *sets* it when leaving CatchUp). -/
theorem c5_counterexample :
    (policyAfterEnter.decide ⟨0, none⟩ 10).1.lastCatchUpExitAt = some 10 ∧
    some 10 ≠ (none : Option Nat) := by
  decide

/-- **C5 (amended).** For every `decide` call with `queued_lines = 0`: the
decision is Smooth with plan Single and `entered_catch_up = false`, the mode
becomes Smooth, the exit-hold start time is cleared, and the re-entry-hold
timestamp is *set to `now`* when the policy was in CatchUp and left unchanged
otherwise (it is not cleared). -/
theorem c5_empty_queue_forces_smooth (p : AdaptiveChunkingPolicy)
    (s : QueueSnapshot) (now : Nat) (h : s.queuedLines = 0) :
    let r := p.decide s now
    r.2.mode = .smooth ∧ r.2.drainPlan = .single ∧ r.2.enteredCatchUp = false ∧
    r.1.mode = .smooth ∧ r.1.belowExitThresholdSince = none ∧
    r.1.lastCatchUpExitAt =
      (if p.mode = .catchUp then some now else p.lastCatchUpExitAt) := by
  simp only [AdaptiveChunkingPolicy.decide, AdaptiveChunkingPolicy.noteCatchUpExit, h,
    if_pos rfl]
  by_cases hm : p.mode = .catchUp <;> simp [hm]

/-- Witness for `c5_empty_queue_forces_smooth` at a concrete input. -/
theorem c5_empty_queue_forces_smooth_witness :
    (⟨0, none⟩ : QueueSnapshot).queuedLines = 0 ∧
    (let r := policyAfterEnter.decide ⟨0, none⟩ 10
     r.2.mode = .smooth ∧ r.2.drainPlan = .single ∧ r.2.enteredCatchUp = false ∧
     r.1.mode = .smooth ∧ r.1.belowExitThresholdSince = none ∧
     r.1.lastCatchUpExitAt =
       (if policyAfterEnter.mode = .catchUp then some 10
        else policyAfterEnter.lastCatchUpExitAt)) :=
  ⟨rfl, c5_empty_queue_forces_smooth policyAfterEnter ⟨0, none⟩ 10 rfl⟩

end ChunkingProofs

namespace StreamingProofs

open Chunking Streaming

/-- Any `decide` whose decision has mode Smooth issues the Single drain plan. -/
theorem decide_smooth_plan_single (p : AdaptiveChunkingPolicy) (s : QueueSnapshot)
    (now : Nat) (h : (p.decide s now).2.mode = .smooth) :
    (p.decide s now).2.drainPlan = .single := by
  unfold AdaptiveChunkingPolicy.decide at *
  by_cases h0 : s.queuedLines = 0
  · simp [h0]
  · simp only [h0, if_neg h0] at h ⊢
    revert h
    cases hm :
        (match p.mode with
          | .smooth => p.maybeEnterCatchUp s now
          | .catchUp => (p.maybeExitCatchUp s now, false)).1.mode <;>
      simp [hm]

/-- `drain_n 1` returns at most one line. -/
theorem drainN_one_length_le {L : Type} (s : StreamState L) :
    (s.drainN 1).2.length ≤ 1 := by
  simp only [StreamState.drainN, List.length_map, List.length_take]
  omega

/-- **C4 counterexample.** The claim says a commit tick whose policy decision
is Smooth (plan Single) drains at most one line from the Text and Thinking
queues *combined*. Concrete input: fresh Smooth policy, one queued line in
each stream (snapshot queued = 2, oldest = 0 ms) at t = 0. The decision is
Smooth/Single, yet the tick drains two lines — one from each stream. -/
theorem c4_counterexample :
    let r := runCommitTick .new (oneLineState 0) (oneLineState 1) 0
    (AdaptiveChunkingPolicy.new.decide
        (streamQueueSnapshot (oneLineState 0) (oneLineState 1) 0) 0).2.mode = .smooth ∧
    r.2.2.2.textLines = [0] ∧ r.2.2.2.thinkingLines = [1] ∧
    r.2.2.2.textLines.length + r.2.2.2.thinkingLines.length = 2 := by
  decide

/-- **C4 (amended).** In Smooth mode a commit tick drains at most one line
*per stream*: whenever the policy decision for the tick has mode Smooth (drain
plan Single), the tick drains at most one line from the Text queue and at most
one line from the Thinking queue (hence at most two combined, not one). -/
theorem c4_smooth_tick_drains_one_per_stream {L : Type}
    (policy : AdaptiveChunkingPolicy) (textState thinkingState : StreamState L)
    (now : Nat)
    (h : (policy.decide (streamQueueSnapshot textState thinkingState now) now).2.mode
          = .smooth) :
    let r := runCommitTick policy textState thinkingState now
    r.2.2.2.textLines.length ≤ 1 ∧ r.2.2.2.thinkingLines.length ≤ 1 := by
  have hplan := decide_smooth_plan_single policy
    (streamQueueSnapshot textState thinkingState now) now h
  simp only [runCommitTick, applyCommitTickPlan, hplan]
  exact ⟨drainN_one_length_le textState, drainN_one_length_le thinkingState⟩

/-- Witness for `c4_smooth_tick_drains_one_per_stream` at a concrete input. -/
theorem c4_smooth_tick_drains_one_per_stream_witness :
    (AdaptiveChunkingPolicy.new.decide
        (streamQueueSnapshot (oneLineState 0) (oneLineState 1) 0) 0).2.mode
      = .smooth ∧
    (let r := runCommitTick .new (oneLineState 0) (oneLineState 1) 0
     r.2.2.2.textLines.length ≤ 1 ∧ r.2.2.2.thinkingLines.length ≤ 1) :=
  ⟨by decide,
   c4_smooth_tick_drains_one_per_stream .new (oneLineState 0) (oneLineState 1) 0
     (by decide)⟩

end StreamingProofs

namespace StreamingProofs

open Chunking Streaming

/-- `rfind('\n')` returns `None` exactly when the buffer has no newline. -/
theorem rfindNewline_eq_none_iff (l : List Char) :
    rfindNewline l = none ↔ '\n' ∉ l := by
  induction l with
  | nil => simp [rfindNewline]
  | cons c cs ih =>
    simp only [rfindNewline, List.mem_cons]
    cases h : rfindNewline cs with
    | some i =>
      have hmem : '\n' ∈ cs := by
        by_contra hmem
        exact Option.noConfusion (h.symm.trans (ih.mpr hmem))
      simp [hmem]
    | none =>
      have hmem : '\n' ∉ cs := ih.mp h
      by_cases hc : c = '\n' <;> simp [hc, hmem, eq_comm]

/-- `rfind('\n') = Some idx` means position `idx` holds a newline and no
newline occurs after it. -/
theorem rfindNewline_spec (l : List Char) :
    ∀ idx, rfindNewline l = some idx →
      l.get? idx = some '\n' ∧ '\n' ∉ l.drop (idx + 1) := by
  induction l with
  | nil => intro idx h; simp [rfindNewline] at h
  | cons c cs ih =>
    intro idx h
    simp only [rfindNewline] at h
    cases hc : rfindNewline cs with
    | some i =>
      rw [hc] at h
      obtain rfl : i + 1 = idx := by simpa using h
      obtain ⟨h1, h2⟩ := ih i hc
      exact ⟨by simpa using h1, by simpa [List.drop_succ_cons] using h2⟩
    | none =>
      rw [hc] at h
      by_cases hceq : c = '\n'
      · obtain rfl : (0 : Nat) = idx := by simpa [hceq] using h
        exact ⟨by simp [hceq], by simpa using (rfindNewline_eq_none_iff cs).mp hc⟩
      · simp [hceq] at h

/-- The eligible prefix (up to and including the last newline) ends with a
newline. -/
theorem rfindNewline_take_getLast (l : List Char) :
    ∀ idx, rfindNewline l = some idx → (l.take (idx + 1)).getLast? = some '\n' := by
  induction l with
  | nil => intro idx h; simp [rfindNewline] at h
  | cons c cs ih =>
    intro idx h
    simp only [rfindNewline] at h
    cases hc : rfindNewline cs with
    | some i =>
      rw [hc] at h
      obtain rfl : i + 1 = idx := by simpa using h
      have ihi := ih i hc
      have hne : cs.take (i + 1) ≠ [] := by
        intro hnil
        rw [hnil] at ihi
        simp at ihi
      obtain ⟨x, xs, hx⟩ := List.exists_cons_of_ne_nil hne
      simp only [List.take_succ_cons, hx]
      rw [List.getLast?_cons_cons]
      rw [← hx]
      exact ihi
    | none =>
      rw [hc] at h
      by_cases hceq : c = '\n'
      · obtain rfl : (0 : Nat) = idx := by simpa [hceq] using h
        simp [hceq]
      · simp [hceq] at h

/-- A `push_delta` sequence appends the concatenation of the deltas to the
buffer and leaves the committed-line watermark and width untouched. -/
theorem applyDeltas_spec (ds : List (List Char)) :
    ∀ c : MarkdownStreamCollector,
      (applyDeltas c ds).buffer = c.buffer ++ ds.flatten ∧
      (applyDeltas c ds).committedLineCount = c.committedLineCount ∧
      (applyDeltas c ds).width = c.width := by
  induction ds with
  | nil => intro c; simp [applyDeltas]
  | cons d ds ih =>
    intro c
    obtain ⟨h1, h2, h3⟩ := ih (c.pushDelta d)
    simp only [MarkdownStreamCollector.pushDelta] at h1 h2 h3
    refine ⟨?_, ?_, ?_⟩ <;>
      simp [applyDeltas, MarkdownStreamCollector.pushDelta, h1, h2, h3]

/-- **C2.** Newline gating of the streaming accumulator. For every renderer,
every collector state and every `push_delta` sequence:
(1) pushes only append to the buffer (the buffer is the concatenation of all
    accumulated deltas) and never move the committed-line watermark;
(2) while the buffer contains no newline, `commit_complete_lines` returns the
    empty list and leaves the collector unchanged;
(3) `current_tail` is exactly the buffer suffix after the last newline: the
    buffer splits as a prefix (empty or ending in `'\n'`) followed by the
    newline-free tail — so only content up to the last newline is ever
    eligible for commitment;
(4) a `commit_complete_lines` call never decreases the watermark, never
    changes the buffer, and returns exactly the newly eligible rendered lines:
    the slice of the render of the prefix up to the last newline that lies
    between the previous and the new watermark. -/
theorem c2_newline_gating {L : Type} (env : RenderEnv L)
    (c : MarkdownStreamCollector) (ds : List (List Char)) :
    ((applyDeltas c ds).buffer = c.buffer ++ ds.flatten ∧
      (applyDeltas c ds).committedLineCount = c.committedLineCount) ∧
    ('\n' ∉ c.buffer → c.commitCompleteLines env = (c, [])) ∧
    (∃ p, c.buffer = p ++ c.currentTail ∧ '\n' ∉ c.currentTail ∧
      (p = [] ∨ p.getLast? = some '\n')) ∧
    ((c.commitCompleteLines env).1.committedLineCount ≥ c.committedLineCount ∧
      (c.commitCompleteLines env).1.buffer = c.buffer ∧
      ∀ idx, rfindNewline c.buffer = some idx →
        (c.commitCompleteLines env).2 =
          ((env.render (c.buffer.take (idx + 1)) c.width).drop
              c.committedLineCount).take
            ((c.commitCompleteLines env).1.committedLineCount -
              c.committedLineCount)) := by
  refine ⟨⟨(applyDeltas_spec ds c).1, (applyDeltas_spec ds c).2.1⟩, ?_, ?_, ?_⟩
  · intro hnl
    have h := (rfindNewline_eq_none_iff c.buffer).mpr hnl
    simp [MarkdownStreamCollector.commitCompleteLines, h]
  · cases h : rfindNewline c.buffer with
    | none =>
      refine ⟨[], by simp [MarkdownStreamCollector.currentTail, h], ?_, Or.inl rfl⟩
      simp only [MarkdownStreamCollector.currentTail, h]
      exact (rfindNewline_eq_none_iff c.buffer).mp h
    | some idx =>
      refine ⟨c.buffer.take (idx + 1), ?_, ?_, Or.inr ?_⟩
      · simp [MarkdownStreamCollector.currentTail, h]
      · simp only [MarkdownStreamCollector.currentTail, h]
        exact (rfindNewline_spec c.buffer idx h).2
      · exact rfindNewline_take_getLast c.buffer idx h
  · cases h : rfindNewline c.buffer with
    | none =>
      simp [MarkdownStreamCollector.commitCompleteLines, h]
    | some idx =>
      simp only [MarkdownStreamCollector.commitCompleteLines, h]
      by_cases hge :
          c.committedLineCount ≥
            MarkdownStreamCollector.completeLineCount env
              (env.render (c.buffer.take (idx + 1)) c.width)
      · simp only [if_pos hge]
        refine ⟨le_rfl, by trivial, ?_⟩
        intro idx2 h2
        obtain rfl : idx = idx2 := Option.some.inj h2
        simp
      · simp only [if_neg hge]
        refine ⟨by omega, by trivial, ?_⟩
        intro idx2 h2
        obtain rfl : idx = idx2 := Option.some.inj h2
        rfl

/-- Witness for `c2_newline_gating`: its no-newline branch applied to the
concrete newline-free collector, and its newly-eligible-slice equation applied
to the concrete collector with a newline. -/
theorem c2_newline_gating_witness :
    ('\n' ∉ collNoNewline.buffer ∧
      collNoNewline.commitCompleteLines envN = (collNoNewline, [])) ∧
    (rfindNewline collWithNewline.buffer = some 1 ∧
      (collWithNewline.commitCompleteLines envN).2 =
        ((envN.render (collWithNewline.buffer.take 2) collWithNewline.width).drop
            collWithNewline.committedLineCount).take
          ((collWithNewline.commitCompleteLines envN).1.committedLineCount -
            collWithNewline.committedLineCount)) :=
  ⟨⟨by decide, (c2_newline_gating envN collNoNewline []).2.1 (by decide)⟩,
   ⟨by decide, (c2_newline_gating envN collWithNewline []).2.2.2.2.2 1 (by decide)⟩⟩

end StreamingProofs

namespace MessageModelProofs

open MessageModel

set_option maxRecDepth 4000 in
/-- **C10 (code bug).** `ParameterValue::get_display_value` is *not* total: at
the failing input — 96 one-byte characters followed by four two-byte
characters (104 UTF-8 bytes) — the value is over 100 bytes long but byte 97 is
not a character boundary, so the byte slice `&self.value[..97]` panics
(modelled as `none`). The same-length all-ASCII value truncates fine, showing
the panic is exactly the multi-byte truncation-point case the claim asserts is
handled. -/
theorem c10_get_display_value_panics :
    utf8Len c10FailingValue = 104 ∧
    getDisplayValue c10FailingValue = none ∧
    getDisplayValue (List.replicate 104 'a') =
      some (List.replicate 97 'a' ++ ("...".data)) := by
  decide

end MessageModelProofs

namespace AppLoopProofs

open AppLoop

/-- **C8.** Escape cascade: a single Esc press dismisses the current error if
one is shown (leaving the info message, cancel flag, and the rest of the state
unchanged); otherwise it clears the info message if one is set; otherwise,
when a current session id exists, it sets the cancel flag and writes the info
message "Cancellation requested..." — or "No agent is currently running."
when the session activity state is Idle; with no session id it does nothing. -/
theorem c8_escape_cascade (s : AppEscState) :
    (s.hasError = true →
      handleEscape s = { s with hasError := false }) ∧
    (s.hasError = false → s.infoMessage.isSome →
      handleEscape s = { s with infoMessage := none }) ∧
    (s.hasError = false → s.infoMessage = none → s.currentSessionId.isSome →
      (handleEscape s).cancelFlag = true ∧
      (handleEscape s).infoMessage =
        some (if s.activityState = some .idle then noAgentRunningMsg
              else cancellationRequestedMsg) ∧
      (handleEscape s).hasError = false) ∧
    (s.hasError = false → s.infoMessage = none → s.currentSessionId = none →
      handleEscape s = s) := by
  refine ⟨?_, ?_, ?_, ?_⟩
  · intro h; simp [handleEscape, h]
  · intro h hinfo; simp [handleEscape, h, hinfo]
  · intro h hinfo hsid
    obtain ⟨sid, hs⟩ := Option.isSome_iff_exists.mp hsid
    by_cases hidle : s.activityState = some .idle <;>
      simp [handleEscape, h, hinfo, hs, hidle]
  · intro h hinfo hsid; simp [handleEscape, h, hinfo, hsid]

/-- Witness for `c8_escape_cascade`: the cancel branch at a concrete state
with no error, no info, a session id, and a running activity state. -/
theorem c8_escape_cascade_witness :
    (let s : AppEscState :=
      { hasError := false, infoMessage := none,
        activityState := some .running, currentSessionId := some ("s1".data),
        cancelFlag := false }
     (handleEscape s).cancelFlag = true ∧
     (handleEscape s).infoMessage =
       some (if s.activityState = some .idle then noAgentRunningMsg
             else cancellationRequestedMsg) ∧
     (handleEscape s).hasError = false) :=
  (c8_escape_cascade _).2.2.1 rfl rfl rfl

end AppLoopProofs

namespace ComposerProofs

open Composer

/-- `replaceAllAux` on the empty string yields the empty string. -/
theorem replaceAllAux_nil (pat repl : List Char) (fuel : Nat) :
    replaceAllAux pat repl fuel [] = [] := by
  cases fuel <;> rfl

/-- Replacing a nonempty pattern inside exactly itself yields the
replacement. -/
theorem replaceAll_self (pat repl : List Char) (h : pat ≠ []) :
    replaceAll pat repl pat = repl := by
  unfold replaceAll
  rw [if_neg h]
  obtain ⟨c, rest, rfl⟩ := List.exists_cons_of_ne_nil h
  show replaceAllAux (c :: rest) repl (rest.length + 1) (c :: rest) = repl
  rw [replaceAllAux]
  rw [if_pos (by simp [List.isPrefixOf_iff_prefix])]
  simp [replaceAllAux_nil]

/-- Inserting an element into a fresh textarea puts exactly that text in the
buffer. -/
theorem insertElement_new_text (s : List Char) :
    (TextArea.new.insertElement s).text = s := by
  simp [TextArea.insertElement, TextArea.clampPosForInsertion,
    TextArea.clampPosToCharBoundary, TextArea.findElementContaining, TextArea.new]

/-- Inserting a string into a fresh textarea puts exactly that text in the
buffer. -/
theorem insertStr_new_text (s : List Char) :
    (TextArea.new.insertStr s).text = s := by
  simp [TextArea.insertStr, TextArea.insertStrAt, TextArea.clampPosForInsertion,
    TextArea.clampPosToCharBoundary, TextArea.findElementContaining, TextArea.new]

/-- The first placeholder for a given line count is nonempty (it starts with
`'['`). -/
theorem largePastePlaceholder_ne_nil (lineCount : Nat) :
    largePastePlaceholder lineCount 1 ≠ [] := by
  unfold largePastePlaceholder
  rw [if_pos rfl]
  intro hnil
  rw [List.append_eq_nil, List.append_eq_nil] at hnil
  exact absurd hnil.1.1 (by decide)

set_option maxRecDepth 40000 in
/-- **C6 counterexample.** The claim says the submitted content built by
expanding placeholders equals the original paste `p`. Concrete input: 200
`'a'` characters followed by `"\r\n"` (202 characters, more than 200). The
code normalizes CRLF to LF *before* recording the paste, so the submitted
content is the 201-character normalized form, not the original paste. -/
theorem c6_counterexample :
    (InputManager.new.handlePaste c6Paste).buildSubmitContent =
      List.replicate 200 'a' ++ ['\n'] ∧
    (InputManager.new.handlePaste c6Paste).buildSubmitContent ≠ c6Paste := by
  decide

/-- **C6 (amended).** Large-paste round trip *up to newline normalization*:
`handle_paste` first normalizes CRLF/CR to LF. For every paste `p` fed to a
fresh input manager, with `n` the normalized form: when `n` has more than 200
characters, the textarea holds the single atomic placeholder
`[Pasted N lines]` (`N` = `n`'s line count; `#k` suffixes only appear on later
collisions), `n` is recorded against that placeholder, and the submitted
content equals `n`; when `n` has at most 200 characters it is inserted
literally with no placeholder recorded, and the submitted content is `n`. -/
theorem c6_large_paste_round_trip (p : List Char) :
    ((normalizeNewlines p).length > largePasteCharThreshold →
      (InputManager.new.handlePaste p).textarea.text =
        largePastePlaceholder (linesCount (normalizeNewlines p)) 1 ∧
      (InputManager.new.handlePaste p).pendingPastes =
        [(largePastePlaceholder (linesCount (normalizeNewlines p)) 1,
          normalizeNewlines p)] ∧
      (InputManager.new.handlePaste p).buildSubmitContent = normalizeNewlines p) ∧
    ((normalizeNewlines p).length ≤ largePasteCharThreshold →
      (InputManager.new.handlePaste p).textarea.text = normalizeNewlines p ∧
      (InputManager.new.handlePaste p).pendingPastes = [] ∧
      (InputManager.new.handlePaste p).buildSubmitContent = normalizeNewlines p) := by
  constructor
  · intro h
    have hbig : ¬ (normalizeNewlines p).length ≤ largePasteCharThreshold := by omega
    simp only [InputManager.handlePaste, InputManager.nextLargePastePlaceholder,
      InputManager.new, bumpCounter, List.lookup] at *
    rw [if_pos h]
    refine ⟨insertElement_new_text _, by simp, ?_⟩
    simp only [InputManager.buildSubmitContent, insertElement_new_text,
      List.nil_append, List.isEmpty_cons, List.foldl]
    exact replaceAll_self _ _ (largePastePlaceholder_ne_nil _)
  · intro h
    simp only [InputManager.handlePaste, InputManager.new]
    rw [if_neg (by omega)]
    refine ⟨insertStr_new_text _, rfl, ?_⟩
    simp [InputManager.buildSubmitContent, insertStr_new_text]

set_option maxRecDepth 40000 in
/-- Witness for `c6_large_paste_round_trip`: the large branch at 201 `'a'`
characters and the literal branch at a one-character paste. -/
theorem c6_large_paste_round_trip_witness :
    ((normalizeNewlines (List.replicate 201 'a')).length > largePasteCharThreshold ∧
      (InputManager.new.handlePaste (List.replicate 201 'a')).buildSubmitContent =
        normalizeNewlines (List.replicate 201 'a')) ∧
    ((normalizeNewlines ['a']).length ≤ largePasteCharThreshold ∧
      (InputManager.new.handlePaste ['a']).textarea.text = normalizeNewlines ['a']) :=
  ⟨⟨by decide,
    ((c6_large_paste_round_trip (List.replicate 201 'a')).1 (by decide)).2.2⟩,
   ⟨by decide, ((c6_large_paste_round_trip ['a']).2 (by decide)).1⟩⟩

end ComposerProofs

namespace ComposerProofs

open Composer

/-- Disjointness of element spans is symmetric. -/
theorem elemDisj_symm : Symmetric elemDisj := fun _ _ h => h.symm

/-- The element-containment test decodes to strict containment. -/
theorem containsPos_iff (e : TextElement) (pos : Nat) :
    TextArea.containsPos e pos = true ↔ e.start < pos ∧ pos < e.stop := by
  simp [TextArea.containsPos]

/-- Unfolding a successful `find_element_containing`. -/
theorem findElementContaining_some {elements : List TextElement} {pos : Nat}
    {e : TextElement} (h : TextArea.findElementContaining elements pos = some e) :
    e ∈ elements ∧ e.start < pos ∧ pos < e.stop := by
  unfold TextArea.findElementContaining at h
  have hb : TextArea.containsPos e pos = true :=
    @List.find?_some _ (fun x => TextArea.containsPos x pos) e elements h
  exact ⟨List.mem_of_find?_eq_some h, (containsPos_iff _ _).mp hb⟩

/-- Unfolding a failed `find_element_containing`. -/
theorem findElementContaining_none {elements : List TextElement} {pos : Nat}
    (h : TextArea.findElementContaining elements pos = none) :
    ∀ e ∈ elements, ¬(e.start < pos ∧ pos < e.stop) := by
  intro e he hin
  unfold TextArea.findElementContaining at h
  have hb : ¬ TextArea.containsPos e pos = true := List.find?_eq_none.mp h e he
  rw [containsPos_iff] at hb
  exact hb hin

/-- A boundary of a nonempty element of a pairwise-disjoint family is not
strictly inside any element of the family. -/
theorem boundary_not_inside {elements : List TextElement}
    (hd : elements.Pairwise elemDisj) {e : TextElement} (he : e ∈ elements)
    (hne : e.start < e.stop) {q : Nat} (hq : q = e.start ∨ q = e.stop) :
    ∀ e2 ∈ elements, ¬(e2.start < q ∧ q < e2.stop) := by
  intro e2 he2 ⟨h1, h2⟩
  by_cases heq : e = e2
  · subst heq
    rcases hq with rfl | rfl <;> omega
  · have hdisj : elemDisj e e2 :=
      List.Pairwise.forall elemDisj_symm hd he he2 heq
    rcases hdisj with h3 | h3 <;> rcases hq with rfl | rfl <;> omega

/-- `clamp_pos_to_nearest_boundary` yields a position within the text that is
not strictly inside any element. -/
theorem clampNearest_spec (t : TextArea)
    (hw : ∀ e ∈ t.elements, e.stop ≤ t.text.length)
    (hd : t.elements.Pairwise elemDisj) (pos : Nat) :
    t.clampPosToNearestBoundary pos ≤ t.text.length ∧
    ∀ e ∈ t.elements,
      ¬(e.start < t.clampPosToNearestBoundary pos ∧
        t.clampPosToNearestBoundary pos < e.stop) := by
  simp only [TextArea.clampPosToNearestBoundary, TextArea.clampPosToCharBoundary]
  cases hfind : TextArea.findElementContaining t.elements (min pos t.text.length) with
  | none =>
    dsimp only
    exact ⟨Nat.min_le_right _ _, findElementContaining_none hfind⟩
  | some e =>
    obtain ⟨hmem, hpred⟩ := findElementContaining_some hfind
    have hstop := hw e hmem
    dsimp only
    by_cases hside : min pos t.text.length - e.start ≤ e.stop - min pos t.text.length
    · rw [if_pos hside]
      exact ⟨by omega, boundary_not_inside hd hmem (by omega) (Or.inl rfl)⟩
    · rw [if_neg hside]
      exact ⟨by omega, boundary_not_inside hd hmem (by omega) (Or.inr rfl)⟩

/-- `clamp_pos_for_insertion` computes the same position as
`clamp_pos_to_nearest_boundary` (its extra `.min(len)` is idempotent). -/
theorem clampForInsertion_eq (t : TextArea) (pos : Nat) :
    t.clampPosForInsertion pos = t.clampPosToNearestBoundary pos := by
  simp only [TextArea.clampPosForInsertion, TextArea.clampPosToNearestBoundary,
    TextArea.clampPosToCharBoundary]
  have hmin : min (min pos t.text.length) t.text.length = min pos t.text.length := by
    rw [Nat.min_assoc, Nat.min_self]
  simp only [hmin]

/-- `prev_atomic_boundary` yields a position within the text that is not
strictly inside any element. -/
theorem prevAtomicBoundary_spec (t : TextArea)
    (hw : ∀ e ∈ t.elements, e.stop ≤ t.text.length)
    (hd : t.elements.Pairwise elemDisj) (pos : Nat) (hpos : pos ≤ t.text.length) :
    t.prevAtomicBoundary pos ≤ t.text.length ∧
    ∀ e ∈ t.elements,
      ¬(e.start < t.prevAtomicBoundary pos ∧ t.prevAtomicBoundary pos < e.stop) := by
  simp only [TextArea.prevAtomicBoundary]
  by_cases h0 : pos = 0
  · simp only [if_pos h0]
    exact ⟨Nat.zero_le _, fun e _ hin => by omega⟩
  · rw [if_neg h0]
    cases hfind : t.elements.find?
        (fun e => decide (pos > e.start) && decide (pos ≤ e.stop)) with
    | some e =>
      have hmem := List.mem_of_find?_eq_some hfind
      have hpred := List.find?_some hfind
      simp only [Bool.and_eq_true, decide_eq_true_eq] at hpred
      have hstop := hw e hmem
      dsimp only
      exact ⟨by omega, boundary_not_inside hd hmem (by omega) (Or.inl rfl)⟩
    | none =>
      dsimp only
      cases hfind2 : TextArea.findElementContaining t.elements (pos - 1) with
      | some e =>
        obtain ⟨hmem, hpred⟩ := findElementContaining_some hfind2
        have hstop := hw e hmem
        dsimp only
        exact ⟨by omega, boundary_not_inside hd hmem (by omega) (Or.inl rfl)⟩
      | none =>
        dsimp only
        exact ⟨by omega, findElementContaining_none hfind2⟩

/-- `next_atomic_boundary` yields a position within the text that is not
strictly inside any element. -/
theorem nextAtomicBoundary_spec (t : TextArea)
    (hw : ∀ e ∈ t.elements, e.stop ≤ t.text.length)
    (hd : t.elements.Pairwise elemDisj) (pos : Nat) :
    t.nextAtomicBoundary pos ≤ t.text.length ∧
    ∀ e ∈ t.elements,
      ¬(e.start < t.nextAtomicBoundary pos ∧ t.nextAtomicBoundary pos < e.stop) := by
  simp only [TextArea.nextAtomicBoundary]
  by_cases h0 : pos ≥ t.text.length
  · rw [if_pos h0]
    refine ⟨le_rfl, ?_⟩
    intro e he hin
    have := hw e he
    omega
  · rw [if_neg h0]
    cases hfind : t.elements.find?
        (fun e => decide (pos ≥ e.start) && decide (pos < e.stop)) with
    | some e =>
      have hmem := List.mem_of_find?_eq_some hfind
      have hpred := List.find?_some hfind
      simp only [Bool.and_eq_true, decide_eq_true_eq] at hpred
      have hstop := hw e hmem
      dsimp only
      exact ⟨by omega, boundary_not_inside hd hmem (by omega) (Or.inr rfl)⟩
    | none =>
      dsimp only
      cases hfind2 : TextArea.findElementContaining t.elements (pos + 1) with
      | some e =>
        obtain ⟨hmem, hpred⟩ := findElementContaining_some hfind2
        have hstop := hw e hmem
        dsimp only
        exact ⟨by omega, boundary_not_inside hd hmem (by omega) (Or.inr rfl)⟩
      | none =>
        dsimp only
        refine ⟨by omega, ?_⟩
        exact findElementContaining_none hfind2

end ComposerProofs

namespace ComposerProofs

open Composer

/-- Characters before a splice point are unchanged. -/
theorem splice_getElem_left (text repl : List Char) (start stop i : Nat)
    (hstart : start ≤ text.length) (hi : i < start) :
    (text.take start ++ repl ++ text.drop stop)[i]? = text[i]? := by
  have hlt : i < (text.take start).length := by
    rw [List.length_take]
    omega
  rw [List.append_assoc, List.getElem?_append_left hlt, List.getElem?_take_of_lt hi]

/-- Characters after a splice point shift by the splice's length change. -/
theorem splice_getElem_right (text repl : List Char) (start stop k : Nat)
    (hstart : start ≤ text.length) :
    (text.take start ++ repl ++ text.drop stop)[start + repl.length + k]? =
      text[stop + k]? := by
  have h1 : (text.take start).length = start := by
    rw [List.length_take]
    omega
  rw [List.append_assoc,
    List.getElem?_append_right (by omega : (text.take start).length ≤ start + repl.length + k)]
  have h2 : start + repl.length + k - (text.take start).length = repl.length + k := by omega
  rw [h2, List.getElem?_append_right (by omega : repl.length ≤ repl.length + k)]
  have h3 : repl.length + k - repl.length = k := by omega
  rw [h3, List.getElem?_drop]

/-- Characters of the spliced-in segment are the replacement's characters. -/
theorem splice_getElem_mid (text repl : List Char) (start stop k : Nat)
    (hstart : start ≤ text.length) (hk : k < repl.length) :
    (text.take start ++ repl ++ text.drop stop)[start + k]? = repl[k]? := by
  have h1 : (text.take start).length = start := by
    rw [List.length_take]
    omega
  rw [List.append_assoc,
    List.getElem?_append_right (by omega : (text.take start).length ≤ start + k)]
  have h2 : start + k - (text.take start).length = k := by omega
  rw [h2, List.getElem?_append_left hk]

/-- Length of a splice. -/
theorem splice_length (text repl : List Char) (start stop : Nat)
    (hstart : start ≤ text.length) :
    (text.take start ++ repl ++ text.drop stop).length =
      start + repl.length + (text.length - stop) := by
  simp [List.length_take]
  omega

/-- Membership characterization of `shift_elements`: every output element
comes from a kept input element through exactly one of the three branches. -/
theorem shiftElements_mem {elements : List TextElement} {at_ removed inserted : Nat}
    {e' : TextElement}
    (h : e' ∈ TextArea.shiftElements elements at_ removed inserted) :
    ∃ e ∈ elements,
      ¬(e.start ≥ at_ ∧ e.stop ≤ at_ + removed) ∧
      ((e.stop ≤ at_ ∧ e' = e) ∨
       (¬ e.stop ≤ at_ ∧ e.start ≥ at_ + removed ∧
         e'.start = e.start + inserted - removed ∧
         e'.stop = e.stop + inserted - removed) ∨
       (¬ e.stop ≤ at_ ∧ ¬ e.start ≥ at_ + removed ∧
         e'.start = min at_ e.start ∧
         e'.stop = at_ + max inserted (e.stop - (at_ + removed)))) := by
  simp only [TextArea.shiftElements] at h
  obtain ⟨e, he, hfe⟩ := List.mem_map.mp h
  have hmem := List.mem_of_mem_filter he
  have hq := List.of_mem_filter he
  simp only [Bool.not_eq_eq_eq_not, Bool.not_true, Bool.and_eq_false_imp,
    decide_eq_true_eq, decide_eq_false_iff_not, Bool.not_eq_true,
    Bool.and_eq_true, not_and] at hq
  refine ⟨e, hmem, ?_, ?_⟩
  · intro ⟨ha, hb⟩
    omega
  · by_cases h1 : e.stop ≤ at_
    · left
      rw [if_pos h1] at hfe
      exact ⟨h1, hfe.symm⟩
    · by_cases h2 : e.start ≥ at_ + removed
      · right; left
        rw [if_neg h1, if_pos h2] at hfe
        rw [← hfe]
        exact ⟨h1, h2, rfl, rfl⟩
      · right; right
        rw [if_neg h1, if_neg h2] at hfe
        rw [← hfe]
        exact ⟨h1, h2, rfl, rfl⟩

/-- Pairwise disjointness survives `shift_elements` when no kept element can
reach the overlap branch (the edit point is not strictly inside any
element in the insert case, or the range was expanded in the replace case). -/
theorem shiftElements_disj {elements : List TextElement} {at_ removed inserted : Nat}
    (hd : elements.Pairwise elemDisj)
    (hnov : ∀ e ∈ elements, ¬(e.start < at_ + removed ∧ at_ < e.stop) ∨
      (e.start ≥ at_ ∧ e.stop ≤ at_ + removed)) :
    (TextArea.shiftElements elements at_ removed inserted).Pairwise elemDisj := by
  simp only [TextArea.shiftElements]
  rw [List.pairwise_map]
  refine List.Pairwise.imp_of_mem ?_ (hd.filter _)
  intro a b ha hb hab
  have hma := List.mem_of_mem_filter ha
  have hmb := List.mem_of_mem_filter hb
  have hqa := List.of_mem_filter ha
  have hqb := List.of_mem_filter hb
  simp only [Bool.not_eq_eq_eq_not, Bool.not_true, Bool.and_eq_false_imp,
    decide_eq_true_eq, decide_eq_false_iff_not] at hqa hqb
  have hva : ¬(a.start < at_ + removed ∧ at_ < a.stop) := by
    rcases hnov a hma with h | h
    · exact h
    · intro _; exact absurd h.2 (by simpa using hqa h.1)
  have hvb : ¬(b.start < at_ + removed ∧ at_ < b.stop) := by
    rcases hnov b hmb with h | h
    · exact h
    · intro _; exact absurd h.2 (by simpa using hqb h.1)
  unfold elemDisj at hab ⊢
  by_cases h1a : a.stop ≤ at_ <;> by_cases h2a : a.start ≥ at_ + removed <;>
    by_cases h1b : b.stop ≤ at_ <;> by_cases h2b : b.start ≥ at_ + removed <;>
    simp only [h1a, h2a, h1b, h2b, if_true, if_false, ite_true, ite_false,
      if_pos, if_neg, not_false_iff] <;>
    omega

end ComposerProofs

namespace ComposerProofs

open Composer

/-- `insert_str_at` preserves the textarea invariant, for any position and any
inserted text. -/
theorem insertStrAt_inv (t : TextArea) (inv : Inv t) (pos0 : Nat) (s : List Char) :
    Inv (t.insertStrAt pos0 s) := by
  have hclamp := clampNearest_spec t inv.wfStop inv.disj pos0
  rw [← clampForInsertion_eq] at hclamp
  obtain ⟨hple, hpout⟩ := hclamp
  have hcur := inv.cursorLe
  simp only [TextArea.insertStrAt]
  set p := t.clampPosForInsertion pos0 with hp
  have hlen : (t.text.take p ++ s ++ t.text.drop p).length =
      t.text.length + s.length := by
    rw [splice_length _ _ _ _ hple]
    omega
  refine ⟨?_, ?_, ?_, ?_, ?_⟩
  · simp only [hlen]
    by_cases hc : p ≤ t.cursorPos <;> simp [hc] <;> omega
  · intro e' he'
    obtain ⟨e, hmem, _, hcase⟩ := shiftElements_mem he'
    have hwf := inv.wfStop e hmem
    have hout := hpout e hmem
    simp only [hlen]
    rcases hcase with ⟨h1, rfl⟩ | ⟨h1, h2, h3, h4⟩ | ⟨h1, h2, _, _⟩ <;> omega
  · intro e' he' i hi1 hi2
    obtain ⟨e, hmem, _, hcase⟩ := shiftElements_mem he'
    have hwf := inv.wfStop e hmem
    have hout := hpout e hmem
    rcases hcase with ⟨h1, heq⟩ | ⟨h1, h2, h3, h4⟩ | ⟨h1, h2, _, _⟩
    · rw [heq] at hi1 hi2
      rw [splice_getElem_left _ _ _ _ _ hple (by omega)]
      exact inv.noNl e hmem i hi1 hi2
    · rw [h3] at hi1
      rw [h4] at hi2
      obtain ⟨k, rfl⟩ : ∃ k, i = p + s.length + k := ⟨i - (p + s.length), by omega⟩
      rw [splice_getElem_right _ _ _ _ _ hple]
      exact inv.noNl e hmem (p + k) (by omega) (by omega)
    · omega
  · refine shiftElements_disj inv.disj ?_
    intro e hmem
    have := hpout e hmem
    left
    omega
  · intro e' he'
    obtain ⟨e, hmem, _, hcase⟩ := shiftElements_mem he'
    have hout := hpout e hmem
    have hcout := inv.cursorOut e hmem
    by_cases hc : p ≤ t.cursorPos <;>
      rcases hcase with ⟨h1, heq⟩ | ⟨h1, h2, h3, h4⟩ | ⟨h1, h2, _, _⟩ <;>
      first
        | (subst heq
           simp only [hc, if_true, if_false, ite_true, ite_false]
           omega)
        | (simp only [hc, if_true, if_false, ite_true, ite_false]
           omega)

/-- `insert_str` preserves the textarea invariant. -/
theorem insertStr_inv (t : TextArea) (inv : Inv t) (s : List Char) :
    Inv (t.insertStr s) :=
  insertStrAt_inv t inv t.cursorPos s

/-- `insert_element` preserves the textarea invariant when the element payload
has no newline. -/
theorem insertElement_inv (t : TextArea) (inv : Inv t) (s : List Char)
    (hs : '\n' ∉ s) : Inv (t.insertElement s) := by
  have hclamp := clampNearest_spec t inv.wfStop inv.disj t.cursorPos
  rw [← clampForInsertion_eq] at hclamp
  obtain ⟨hple, hpout⟩ := hclamp
  simp only [TextArea.insertElement]
  set p := t.clampPosForInsertion t.cursorPos with hp
  have hlen : (t.text.take p ++ s ++ t.text.drop p).length =
      t.text.length + s.length := by
    rw [splice_length _ _ _ _ hple]
    omega
  have hperm :=
    List.perm_insertionSort
      (fun a b : TextElement => a.start ≤ b.start)
      (TextArea.shiftElements t.elements p 0 s.length ++
        [({ start := p, stop := p + s.length } : TextElement)])
  have hmemIff : ∀ e' : TextElement,
      e' ∈ (TextArea.shiftElements t.elements p 0 s.length ++
          [({ start := p, stop := p + s.length } : TextElement)]).insertionSort
            (fun a b => a.start ≤ b.start) ↔
        e' ∈ TextArea.shiftElements t.elements p 0 s.length ∨
        e' = { start := p, stop := p + s.length } := by
    intro e'
    rw [hperm.mem_iff]
    simp
  refine ⟨?_, ?_, ?_, ?_, ?_⟩
  · simp only [hlen]
    omega
  · intro e' he'
    rw [hmemIff] at he'
    simp only [hlen]
    rcases he' with he' | rfl
    · obtain ⟨e, hmem, _, hcase⟩ := shiftElements_mem he'
      have hwf := inv.wfStop e hmem
      have hout := hpout e hmem
      rcases hcase with ⟨h1, rfl⟩ | ⟨h1, h2, h3, h4⟩ | ⟨h1, h2, _, _⟩ <;> omega
    · simp only
      omega
  · intro e' he' i hi1 hi2
    rw [hmemIff] at he'
    rcases he' with he' | rfl
    · obtain ⟨e, hmem, _, hcase⟩ := shiftElements_mem he'
      have hwf := inv.wfStop e hmem
      have hout := hpout e hmem
      rcases hcase with ⟨h1, heq⟩ | ⟨h1, h2, h3, h4⟩ | ⟨h1, h2, _, _⟩
      · rw [heq] at hi1 hi2
        rw [splice_getElem_left _ _ _ _ _ hple (by omega)]
        exact inv.noNl e hmem i hi1 hi2
      · rw [h3] at hi1
        rw [h4] at hi2
        obtain ⟨k, rfl⟩ : ∃ k, i = p + s.length + k := ⟨i - (p + s.length), by omega⟩
        rw [splice_getElem_right _ _ _ _ _ hple]
        exact inv.noNl e hmem (p + k) (by omega) (by omega)
      · omega
    · simp only at hi1 hi2
      obtain ⟨k, rfl⟩ : ∃ k, i = p + k := ⟨i - p, by omega⟩
      rw [splice_getElem_mid _ _ _ _ _ hple (by omega)]
      intro hget
      obtain ⟨hlt2, hgetEq⟩ := List.getElem?_eq_some_iff.mp hget
      refine hs ?_
      rw [← hgetEq]
      exact List.getElem_mem hlt2
  · have hpw : List.Pairwise elemDisj
        (TextArea.shiftElements t.elements p 0 s.length ++
          [({ start := p, stop := p + s.length } : TextElement)]) := by
      rw [List.pairwise_append]
      refine ⟨?_, by simp, ?_⟩
      · refine shiftElements_disj inv.disj ?_
        intro e hmem
        have := hpout e hmem
        left
        omega
      · intro a ha b hb
        rw [List.mem_singleton] at hb
        subst hb
        obtain ⟨e, hmem, _, hcase⟩ := shiftElements_mem ha
        have hout := hpout e hmem
        unfold elemDisj
        rcases hcase with ⟨h1, heq⟩ | ⟨h1, h2, h3, h4⟩ | ⟨h1, h2, _, _⟩ <;>
          first
            | (subst heq; simp only; omega)
            | (simp only; omega)
    exact hpw.perm hperm.symm (fun hab => elemDisj_symm hab)
  · intro e' he'
    rw [hmemIff] at he'
    rcases he' with he' | rfl
    · obtain ⟨e, hmem, _, hcase⟩ := shiftElements_mem he'
      have hout := hpout e hmem
      rcases hcase with ⟨h1, heq⟩ | ⟨h1, h2, h3, h4⟩ | ⟨h1, h2, _, _⟩ <;>
        first
          | (subst heq; simp only; omega)
          | (simp only; omega)
    · simp only
      omega

end ComposerProofs

namespace ComposerProofs

open Composer

/-- One expansion pass only grows the range. -/
theorem expandOnePass_grows (elements : List TextElement) :
    ∀ r : Nat × Nat, (TextArea.expandOnePass elements r).1 ≤ r.1 ∧
      r.2 ≤ (TextArea.expandOnePass elements r).2 := by
  induction elements with
  | nil => intro r; exact ⟨le_rfl, le_rfl⟩
  | cons e es ih =>
    intro r
    simp only [TextArea.expandOnePass, List.foldl_cons] at *
    by_cases hc : e.start < r.2 ∧ e.stop > r.1
    · rw [if_pos hc]
      obtain ⟨h1, h2⟩ := ih (min r.1 e.start, max r.2 e.stop)
      exact ⟨by omega, by omega⟩
    · rw [if_neg hc]
      exact ih r

/-- A fixpoint of the expansion pass leaves every element disjoint from or
fully covered by the range. -/
theorem expandOnePass_fix (elements : List TextElement) :
    ∀ r : Nat × Nat, TextArea.expandOnePass elements r = r →
      ∀ e ∈ elements,
        ¬(e.start < r.2 ∧ e.stop > r.1) ∨ (r.1 ≤ e.start ∧ e.stop ≤ r.2) := by
  induction elements with
  | nil => intro r _ e he; exact absurd he (List.not_mem_nil e)
  | cons e es ih =>
    intro r hfix e2 he2
    simp only [TextArea.expandOnePass, List.foldl_cons] at hfix
    have hstep : (if e.start < r.2 ∧ e.stop > r.1
        then (min r.1 e.start, max r.2 e.stop) else r) = r := by
      by_cases hc : e.start < r.2 ∧ e.stop > r.1
      · rw [if_pos hc] at hfix ⊢
        obtain ⟨hg1, hg2⟩ := expandOnePass_grows es (min r.1 e.start, max r.2 e.stop)
        simp only [TextArea.expandOnePass] at hg1 hg2
        rw [hfix] at hg1 hg2
        have hmin : min r.1 e.start = r.1 := by omega
        have hmax : max r.2 e.stop = r.2 := by omega
        rw [hmin, hmax]
      · rw [if_neg hc]
    rw [hstep] at hfix
    rcases List.mem_cons.mp he2 with rfl | hmem
    · by_cases hc : e2.start < r.2 ∧ e2.stop > r.1
      · right
        have := hstep
        rw [if_pos hc] at this
        have h1 : min r.1 e2.start = r.1 := congrArg Prod.fst this
        have h2 : max r.2 e2.stop = r.2 := congrArg Prod.snd this
        omega
      · exact Or.inl hc
    · exact ih r hfix e2 hmem

/-- The covered-element count never exceeds the element count. -/
theorem containedCount_le (elements : List TextElement) (r : Nat × Nat) :
    containedCount elements r ≤ elements.length :=
  List.length_filter_le _ _

/-- Unfolding the covered-element count over a cons. -/
theorem containedCount_cons (e : TextElement) (es : List TextElement) (r : Nat × Nat) :
    containedCount (e :: es) r =
      containedCount es r + (if r.1 ≤ e.start ∧ e.stop ≤ r.2 then 1 else 0) := by
  simp only [containedCount, List.filter_cons]
  by_cases hp : r.1 ≤ e.start ∧ e.stop ≤ r.2
  · simp [hp]
  · simp only [Bool.and_eq_true, decide_eq_true_eq]
    rw [if_neg hp, if_neg hp]
    simp

/-- Growing the range can only grow the covered-element count. -/
theorem containedCount_mono (elements : List TextElement) {r r2 : Nat × Nat}
    (h1 : r2.1 ≤ r.1) (h2 : r.2 ≤ r2.2) :
    containedCount elements r ≤ containedCount elements r2 := by
  induction elements with
  | nil => simp [containedCount]
  | cons e es ih =>
    rw [containedCount_cons, containedCount_cons]
    have := ih
    split_ifs <;> omega

/-- A range growth that covers a new element strictly grows the count. -/
theorem containedCount_lt (elements : List TextElement) {r r2 : Nat × Nat}
    (h1 : r2.1 ≤ r.1) (h2 : r.2 ≤ r2.2) {e : TextElement} (hmem : e ∈ elements)
    (hnew : (r2.1 ≤ e.start ∧ e.stop ≤ r2.2) ∧ ¬(r.1 ≤ e.start ∧ e.stop ≤ r.2)) :
    containedCount elements r < containedCount elements r2 := by
  induction elements with
  | nil => exact absurd hmem (List.not_mem_nil e)
  | cons a es ih =>
    rw [containedCount_cons, containedCount_cons]
    rcases List.mem_cons.mp hmem with rfl | hmem2
    · have hmono := @containedCount_mono es r r2 h1 h2
      rw [if_neg hnew.2, if_pos hnew.1]
      omega
    · have hrec := ih hmem2
      split_ifs with ha hb hb
      · omega
      · omega
      · omega
      · omega

/-- A non-fixpoint expansion pass strictly grows the covered-element count. -/
theorem expandOnePass_strict (elements : List TextElement) :
    ∀ r : Nat × Nat, TextArea.expandOnePass elements r ≠ r →
      containedCount elements r <
        containedCount elements (TextArea.expandOnePass elements r) := by
  induction elements with
  | nil => intro r hne; exact absurd rfl hne
  | cons e es ih =>
    intro r hne
    have hgrow := expandOnePass_grows (e :: es) r
    by_cases hstep :
        (if e.start < r.2 ∧ e.stop > r.1
          then (min r.1 e.start, max r.2 e.stop) else r) = r
    · have hrw : TextArea.expandOnePass (e :: es) r = TextArea.expandOnePass es r := by
        simp only [TextArea.expandOnePass, List.foldl_cons, hstep]
      rw [hrw] at hne ⊢
      have hlt := ih r hne
      have hgrow2 := expandOnePass_grows es r
      rw [containedCount_cons, containedCount_cons]
      split_ifs with hc1 hc2 hc2 <;> omega
    · by_cases hc : e.start < r.2 ∧ e.stop > r.1
      · rw [if_pos hc] at hstep
        have hnotold : ¬(r.1 ≤ e.start ∧ e.stop ≤ r.2) := by
          intro hcov
          refine hstep ?_
          have hmin : min r.1 e.start = r.1 := by omega
          have hmax : max r.2 e.stop = r.2 := by omega
          rw [hmin, hmax]
        have hcovnew :
            (TextArea.expandOnePass (e :: es) r).1 ≤ e.start ∧
              e.stop ≤ (TextArea.expandOnePass (e :: es) r).2 := by
          have hg2 := expandOnePass_grows es (min r.1 e.start, max r.2 e.stop)
          have hrw : TextArea.expandOnePass (e :: es) r =
              TextArea.expandOnePass es (min r.1 e.start, max r.2 e.stop) := by
            simp only [TextArea.expandOnePass, List.foldl_cons, if_pos hc]
          rw [hrw]
          obtain ⟨hg1, hg22⟩ := hg2
          constructor
          · calc (TextArea.expandOnePass es (min r.1 e.start, max r.2 e.stop)).1 ≤
                (min r.1 e.start, max r.2 e.stop).1 := hg1
              _ ≤ e.start := by simp only; omega
          · calc e.stop ≤ (min r.1 e.start, max r.2 e.stop).2 := by simp only; omega
              _ ≤ (TextArea.expandOnePass es (min r.1 e.start, max r.2 e.stop)).2 := hg22
        exact containedCount_lt (e :: es) hgrow.1 hgrow.2 (List.mem_cons_self e es)
          ⟨hcovnew, hnotold⟩
      · rw [if_neg hc] at hstep
        exact absurd rfl hstep

/-- With more fuel than uncovered elements, the fueled loop reaches a
fixpoint. -/
theorem expandLoop_fix (elements : List TextElement) :
    ∀ fuel : Nat, ∀ r : Nat × Nat,
      elements.length - containedCount elements r < fuel →
      TextArea.expandOnePass elements (TextArea.expandLoop elements fuel r) =
        TextArea.expandLoop elements fuel r := by
  intro fuel
  induction fuel with
  | zero => intro r h; omega
  | succ fuel ih =>
    intro r h
    simp only [TextArea.expandLoop]
    by_cases hfix : TextArea.expandOnePass elements r = r
    · rw [if_pos hfix]
      exact hfix
    · rw [if_neg hfix]
      refine ih _ ?_
      have hlt := expandOnePass_strict elements r hfix
      have hle := containedCount_le elements (TextArea.expandOnePass elements r)
      omega

/-- `expand_range_to_element_boundaries` leaves every element either disjoint
from or fully covered by the expanded range. -/
theorem expandRange_spec (elements : List TextElement) (r : Nat × Nat) :
    ∀ e ∈ elements,
      ¬(e.start < (TextArea.expandRangeToElementBoundaries elements r).2 ∧
          e.stop > (TextArea.expandRangeToElementBoundaries elements r).1) ∨
      ((TextArea.expandRangeToElementBoundaries elements r).1 ≤ e.start ∧
        e.stop ≤ (TextArea.expandRangeToElementBoundaries elements r).2) := by
  refine expandOnePass_fix elements _ ?_
  exact expandLoop_fix elements (elements.length + 1) r
    (by have := containedCount_le elements r; omega)

end ComposerProofs

namespace ComposerProofs

open Composer

/-- Setting the cursor through `clamp_pos_to_nearest_boundary` restores the
cursor parts of the invariant from the structural parts. -/
theorem inv_of_clamped (t : TextArea) (p : Nat)
    (hw : ∀ e ∈ t.elements, e.stop ≤ t.text.length)
    (hn : ∀ e ∈ t.elements, ∀ i, e.start ≤ i → i < e.stop → t.text[i]? ≠ some '\n')
    (hd : t.elements.Pairwise elemDisj) :
    Inv { t with cursorPos := t.clampPosToNearestBoundary p } := by
  obtain ⟨h1, h2⟩ := clampNearest_spec t hw hd p
  exact ⟨h1, hw, hn, hd, h2⟩

/-- `replace_range` preserves the textarea invariant, for any requested range
and replacement text. -/
theorem replaceRange_inv (t : TextArea) (inv : Inv t) (rs re : Nat)
    (repl : List Char) : Inv (t.replaceRange rs re repl) := by
  have hP := expandRange_spec t.elements (rs, re)
  simp only [TextArea.replaceRange]
  set R := TextArea.expandRangeToElementBoundaries t.elements (rs, re) with hR
  by_cases htriv : min R.1 t.text.length > min R.2 t.text.length
  · rw [if_pos htriv]
    exact inv
  · rw [if_neg htriv]
    set start := min R.1 t.text.length with hstart
    set stop := min R.2 t.text.length with hstop
    have hss : start ≤ stop := by omega
    have hsle : start ≤ t.text.length := by omega
    have hstople : stop ≤ t.text.length := by omega
    have hPc : ∀ e ∈ t.elements,
        (e.stop ≤ start ∨ stop ≤ e.start) ∨ (start ≤ e.start ∧ e.stop ≤ stop) := by
      intro e hmem
      have hwf := inv.wfStop e hmem
      rcases hP e hmem with h | h
      · left
        omega
      · right
        omega
    set n := repl.length with hn
    set text2 := t.text.take start ++ repl ++ t.text.drop stop with htext2
    set elements2 := TextArea.shiftElements t.elements start (stop - start) n
      with helements2
    have hlen2 : text2.length = start + n + (t.text.length - stop) := by
      rw [htext2, splice_length _ _ _ _ hsle]
    have hw2 : ∀ e ∈ elements2, e.stop ≤ text2.length := by
      intro e' he'
      obtain ⟨e, hmem, _, hcase⟩ := shiftElements_mem he'
      have hwf := inv.wfStop e hmem
      have hpc := hPc e hmem
      rcases hcase with ⟨h1, heq⟩ | ⟨h1, h2, h3, h4⟩ | ⟨h1, h2, _, _⟩
      · rw [heq]
        omega
      · omega
      · omega
    have hn2 : ∀ e ∈ elements2, ∀ i, e.start ≤ i → i < e.stop →
        text2[i]? ≠ some '\n' := by
      intro e' he' i hi1 hi2
      obtain ⟨e, hmem, _, hcase⟩ := shiftElements_mem he'
      have hwf := inv.wfStop e hmem
      have hpc := hPc e hmem
      rcases hcase with ⟨h1, heq⟩ | ⟨h1, h2, h3, h4⟩ | ⟨h1, h2, _, _⟩
      · rw [heq] at hi1 hi2
        rw [htext2, splice_getElem_left _ _ _ _ _ hsle (by omega)]
        exact inv.noNl e hmem i hi1 hi2
      · rw [h3] at hi1
        rw [h4] at hi2
        obtain ⟨k, rfl⟩ : ∃ k, i = start + n + k := ⟨i - (start + n), by omega⟩
        rw [htext2, splice_getElem_right _ _ _ _ _ hsle]
        exact inv.noNl e hmem (stop + k) (by omega) (by omega)
      · omega
    have hd2 : elements2.Pairwise elemDisj := by
      refine shiftElements_disj inv.disj ?_
      intro e hmem
      rcases hPc e hmem with h | h
      · left
        omega
      · right
        omega
    set cpre :=
      min (if t.cursorPos < start then t.cursorPos
           else if t.cursorPos ≤ stop then start + n
           else t.cursorPos + n - (stop - start)) text2.length with hcpre
    exact inv_of_clamped ⟨text2, cpre, none, t.killBuffer, elements2⟩ cpre hw2 hn2 hd2

end ComposerProofs

namespace ComposerProofs

open Composer

/-- `find('\n')` addresses a newline. -/
theorem findNewlineIdx_spec (l : List Char) :
    ∀ i, findNewlineIdx l = some i → l[i]? = some '\n' := by
  induction l with
  | nil => intro i h; simp [findNewlineIdx] at h
  | cons c cs ih =>
    intro i h
    simp only [findNewlineIdx] at h
    by_cases hc : c = '\n'
    · rw [if_pos hc] at h
      obtain rfl : (0 : Nat) = i := by simpa using h
      simp [hc]
    · rw [if_neg hc] at h
      obtain ⟨j, hj, rfl⟩ := Option.map_eq_some.mp h
      simpa using ih j hj
/-- A found index lies within the list. -/
theorem getElem?_some_lt {l : List Char} {i : Nat} {c : Char}
    (h : l[i]? = some c) : i < l.length := by
  by_contra hge
  rw [List.getElem?_eq_none (by omega)] at h
  exact Option.noConfusion h

/-- `rfind('\n')` on the prefix before the cursor finds a newline position of
the full text. -/
theorem rfindNewline_take_pos {text : List Char} {pos idx : Nat}
    (h : Streaming.rfindNewline (text.take pos) = some idx) :
    idx < min pos text.length ∧ text[idx]? = some '\n' := by
  have hspec := (StreamingProofs.rfindNewline_spec (text.take pos) idx h).1
  rw [List.get?_eq_getElem?] at hspec
  have hlt := getElem?_some_lt hspec
  rw [List.length_take] at hlt
  refine ⟨hlt, ?_⟩
  rw [List.getElem?_take_of_lt (by omega)] at hspec
  exact hspec

/-- The invariant ignores the preferred column. -/
theorem inv_preferred (t : TextArea) (pc : Option Nat) (inv : Inv t) :
    Inv { t with preferredCol := pc } :=
  ⟨inv.cursorLe, inv.wfStop, inv.noNl, inv.disj, inv.cursorOut⟩

/-- The invariant ignores the kill buffer. -/
theorem inv_killBuffer (t : TextArea) (kb : List Char) (inv : Inv t) :
    Inv { t with killBuffer := kb } :=
  ⟨inv.cursorLe, inv.wfStop, inv.noNl, inv.disj, inv.cursorOut⟩

/-- `set_cursor` preserves the invariant. -/
theorem setCursor_inv (t : TextArea) (inv : Inv t) (pos : Nat) :
    Inv (t.setCursor pos) := by
  simp only [TextArea.setCursor]
  exact inv_of_clamped ⟨t.text, t.cursorPos, none, t.killBuffer, t.elements⟩
    (min pos t.text.length) inv.wfStop inv.noNl inv.disj

/-- `move_cursor_left` preserves the invariant. -/
theorem moveCursorLeft_inv (t : TextArea) (inv : Inv t) : Inv t.moveCursorLeft := by
  obtain ⟨h1, h2⟩ :=
    prevAtomicBoundary_spec t inv.wfStop inv.disj t.cursorPos inv.cursorLe
  exact ⟨h1, inv.wfStop, inv.noNl, inv.disj, h2⟩

/-- `move_cursor_right` preserves the invariant. -/
theorem moveCursorRight_inv (t : TextArea) (inv : Inv t) : Inv t.moveCursorRight := by
  obtain ⟨h1, h2⟩ := nextAtomicBoundary_spec t inv.wfStop inv.disj t.cursorPos
  exact ⟨h1, inv.wfStop, inv.noNl, inv.disj, h2⟩

/-- `move_to_display_col_on_line` preserves the invariant provided the line
end is inside the text and not strictly inside any element (it is a newline
position or the text end at every call site). -/
theorem moveToDisplayColOnLine_inv (t : TextArea) (inv : Inv t)
    (lineStart lineEnd targetCol : Nat) (hle : lineEnd ≤ t.text.length)
    (hout : ∀ e ∈ t.elements, ¬(e.start < lineEnd ∧ lineEnd < e.stop)) :
    Inv (t.moveToDisplayColOnLine lineStart lineEnd targetCol) := by
  simp only [TextArea.moveToDisplayColOnLine]
  cases hfind : TextArea.findColIdxAux targetCol ((t.text.take lineEnd).drop lineStart) 0 0 with
  | some i =>
    dsimp only
    exact inv_of_clamped ⟨t.text, t.cursorPos, t.preferredCol, t.killBuffer, t.elements⟩
      (lineStart + i) inv.wfStop inv.noNl inv.disj
  | none =>
    dsimp only
    exact ⟨hle, inv.wfStop, inv.noNl, inv.disj, hout⟩

/-- `move_cursor_up` preserves the invariant. -/
theorem moveCursorUp_inv (t : TextArea) (inv : Inv t) : Inv t.moveCursorUp := by
  simp only [TextArea.moveCursorUp]
  cases hfind : Streaming.rfindNewline (t.text.take t.cursorPos) with
  | none =>
    dsimp only
    exact ⟨Nat.zero_le _, inv.wfStop, inv.noNl, inv.disj,
      fun e _ h => by dsimp only at h; omega⟩
  | some prevNl =>
    dsimp only
    obtain ⟨hlt, hnl⟩ := rfindNewline_take_pos hfind
    have hcur := inv.cursorLe
    refine moveToDisplayColOnLine_inv _ (inv_preferred t _ inv) _ _ _
      (show prevNl ≤ t.text.length by omega) ?_
    show ∀ e ∈ t.elements, ¬(e.start < prevNl ∧ prevNl < e.stop)
    intro e he ⟨hin1, hin2⟩
    exact inv.noNl e he prevNl (by omega) hin2 hnl

/-- `move_cursor_down` preserves the invariant. -/
theorem moveCursorDown_inv (t : TextArea) (inv : Inv t) : Inv t.moveCursorDown := by
  simp only [TextArea.moveCursorDown]
  cases hfind : findNewlineIdx (t.text.drop t.cursorPos) with
  | none =>
    dsimp only
    exact ⟨le_rfl, inv.wfStop, inv.noNl, inv.disj,
      fun e he h => by dsimp only at h; have := inv.wfStop e he; omega⟩
  | some i =>
    dsimp only
    have hnl : t.text[t.cursorPos + i]? = some '\n' := by
      have := findNewlineIdx_spec _ i hfind
      rwa [List.getElem?_drop] at this
    cases hfind2 : findNewlineIdx (t.text.drop (i + t.cursorPos + 1)) with
    | none =>
      dsimp only
      refine moveToDisplayColOnLine_inv _ (inv_preferred t _ inv) _ _ _
        (show t.text.length ≤ t.text.length from le_rfl) ?_
      show ∀ e ∈ t.elements, ¬(e.start < t.text.length ∧ t.text.length < e.stop)
      intro e he h
      have := inv.wfStop e he
      omega
    | some j =>
      dsimp only
      have hnl2 : t.text[i + t.cursorPos + 1 + j]? = some '\n' := by
        have := findNewlineIdx_spec _ j hfind2
        rwa [List.getElem?_drop] at this
      have hlt2 := getElem?_some_lt hnl2
      refine moveToDisplayColOnLine_inv _ (inv_preferred t _ inv) _ _ _
        (show j + (i + t.cursorPos + 1) ≤ t.text.length by omega) ?_
      show ∀ e ∈ t.elements,
        ¬(e.start < j + (i + t.cursorPos + 1) ∧ j + (i + t.cursorPos + 1) < e.stop)
      intro e he ⟨hin1, hin2⟩
      exact inv.noNl e he (i + t.cursorPos + 1 + j) (by omega) (by omega) hnl2

/-- `kill_range` preserves the invariant. -/
theorem killRange_inv (t : TextArea) (inv : Inv t) (rs re : Nat) :
    Inv (t.killRange rs re) := by
  simp only [TextArea.killRange]
  by_cases h1 : (TextArea.expandRangeToElementBoundaries t.elements (rs, re)).1 ≥
      (TextArea.expandRangeToElementBoundaries t.elements (rs, re)).2
  · rw [if_pos h1]
    exact inv
  · rw [if_neg h1]
    by_cases h2 : ((t.text.take
        (TextArea.expandRangeToElementBoundaries t.elements (rs, re)).2).drop
        (TextArea.expandRangeToElementBoundaries t.elements (rs, re)).1) = []
    · rw [if_pos h2]
      exact inv
    · rw [if_neg h2]
      exact replaceRange_inv _ (inv_killBuffer t _ inv) _ _ _

/-- `delete_backward` preserves the invariant. -/
theorem deleteBackward_inv (t : TextArea) (inv : Inv t) (n : Nat) :
    Inv (t.deleteBackward n) := by
  simp only [TextArea.deleteBackward]
  by_cases h : n = 0 ∨ t.cursorPos = 0
  · rw [if_pos h]; exact inv
  · rw [if_neg h]; exact replaceRange_inv t inv _ _ _

/-- `delete_forward` preserves the invariant. -/
theorem deleteForward_inv (t : TextArea) (inv : Inv t) (n : Nat) :
    Inv (t.deleteForward n) := by
  simp only [TextArea.deleteForward]
  by_cases h : n = 0 ∨ t.cursorPos ≥ t.text.length
  · rw [if_pos h]; exact inv
  · rw [if_neg h]; exact replaceRange_inv t inv _ _ _

/-- `delete_forward_word` preserves the invariant. -/
theorem deleteForwardWord_inv (t : TextArea) (inv : Inv t) :
    Inv t.deleteForwardWord := by
  simp only [TextArea.deleteForwardWord]
  by_cases h : t.endOfNextWord > t.cursorPos
  · rw [if_pos h]; exact killRange_inv t inv _ _
  · rw [if_neg h]; exact inv

/-- `kill_to_end_of_line` preserves the invariant. -/
theorem killToEndOfLine_inv (t : TextArea) (inv : Inv t) :
    Inv t.killToEndOfLine := by
  simp only [TextArea.killToEndOfLine]
  by_cases h1 : t.cursorPos = t.endOfCurrentLine
  · rw [if_pos h1]
    by_cases h2 : t.endOfCurrentLine < t.text.length
    · rw [if_pos h2]; exact killRange_inv t inv _ _
    · rw [if_neg h2]; exact inv
  · rw [if_neg h1]; exact killRange_inv t inv _ _

/-- `kill_to_beginning_of_line` preserves the invariant. -/
theorem killToBeginningOfLine_inv (t : TextArea) (inv : Inv t) :
    Inv t.killToBeginningOfLine := by
  simp only [TextArea.killToBeginningOfLine]
  by_cases h1 : t.cursorPos = t.beginningOfCurrentLine
  · rw [if_pos h1]
    by_cases h2 : t.beginningOfCurrentLine > 0
    · rw [if_pos h2]; exact killRange_inv t inv _ _
    · rw [if_neg h2]; exact inv
  · rw [if_neg h1]; exact killRange_inv t inv _ _

/-- `yank` preserves the invariant. -/
theorem yank_inv (t : TextArea) (inv : Inv t) : Inv t.yank := by
  simp only [TextArea.yank]
  by_cases h : t.killBuffer = []
  · rw [if_pos h]; exact inv
  · rw [if_neg h]; exact insertStr_inv t inv _

/-- Every public operation whose `insert_element` payload (if any) is
newline-free preserves the invariant. -/
theorem applyOp_inv (t : TextArea) (inv : Inv t) (op : Op)
    (hop : ∀ s, op = Op.insertElement s → '\n' ∉ s) : Inv (applyOp t op) := by
  cases op with
  | insertStr s => exact insertStr_inv t inv s
  | insertElement s => exact insertElement_inv t inv s (hop s rfl)
  | replaceRange start stop repl => exact replaceRange_inv t inv start stop repl
  | setCursor pos => exact setCursor_inv t inv pos
  | moveLeft => exact moveCursorLeft_inv t inv
  | moveRight => exact moveCursorRight_inv t inv
  | moveUp => exact moveCursorUp_inv t inv
  | moveDown => exact moveCursorDown_inv t inv
  | moveBOL =>
    exact inv_preferred _ _ (setCursor_inv t inv _)
  | moveEOL => exact setCursor_inv t inv _
  | wordLeft => exact setCursor_inv t inv _
  | wordRight => exact setCursor_inv t inv _
  | deleteBackward n => exact deleteBackward_inv t inv n
  | deleteForward n => exact deleteForward_inv t inv n
  | deleteBackwardWord => exact killRange_inv t inv _ _
  | deleteForwardWord => exact deleteForwardWord_inv t inv
  | killToEOL => exact killToEndOfLine_inv t inv
  | killToBOL => exact killToBeginningOfLine_inv t inv
  | yank => exact yank_inv t inv

/-- The fresh textarea satisfies the invariant. -/
theorem inv_new : Inv TextArea.new := by
  refine ⟨by simp [TextArea.new], ?_, ?_, ?_, ?_⟩ <;> simp [TextArea.new]

end ComposerProofs

namespace ComposerProofs

open Composer

/-- Invariant preservation over an operation sequence. -/
theorem applyOps_inv (ops : List Op) :
    ∀ t : TextArea, Inv t → (∀ s, Op.insertElement s ∈ ops → '\n' ∉ s) →
      Inv (applyOps t ops) := by
  induction ops with
  | nil => intro t ht _; exact ht
  | cons op rest ih =>
    intro t ht h
    refine ih _ (applyOp_inv t ht op ?_) ?_
    · intro s hs
      refine h s ?_
      rw [← hs]
      exact List.mem_cons_self op rest
    · intro s hs
      exact h s (List.mem_cons_of_mem op hs)

/-- **C7 counterexample.** The claim quantifies over every sequence of public
operations. At the concrete sequence — `insert_element "A\nB"`,
`insert_str "x"`, `move_cursor_up` from a fresh textarea — the cursor lands at
byte 1, strictly inside the registered element range 0..3:
`move_to_display_col_on_line` assigns `cursor = line_end` without boundary
clamping, and the newline inside the element payload makes that position an
interior one. -/
theorem c7_counterexample :
    ∃ e ∈ (applyOps TextArea.new c7Ops).elements,
      e.start < (applyOps TextArea.new c7Ops).cursorPos ∧
      (applyOps TextArea.new c7Ops).cursorPos < e.stop := by
  decide

/-- **C7 (amended).** Element-boundary invariant of the TextArea for
newline-free element payloads: for every sequence of public operations
(insert_str, insert_element, replace_range, set_cursor, cursor motion
including up/down/word motion, deletions, kills, yank) in which every
`insert_element` payload contains no newline — true of the placeholders the
application inserts, `[Pasted N lines]` and `[Image k]` — and for every
registered element range `e` of the resulting state, the byte cursor position
never satisfies `e.start < cursor < e.end`. -/
theorem c7_element_boundary (ops : List Op)
    (h : ∀ s, Op.insertElement s ∈ ops → '\n' ∉ s) :
    ∀ e ∈ (applyOps TextArea.new ops).elements,
      ¬(e.start < (applyOps TextArea.new ops).cursorPos ∧
        (applyOps TextArea.new ops).cursorPos < e.stop) :=
  (applyOps_inv ops TextArea.new inv_new h).cursorOut

/-- Witness for `c7_element_boundary` at a concrete operation sequence. -/
theorem c7_element_boundary_witness :
    (∀ s, Op.insertElement s ∈ c7WitnessOps → '\n' ∉ s) ∧
    (∀ e ∈ (applyOps TextArea.new c7WitnessOps).elements,
      ¬(e.start < (applyOps TextArea.new c7WitnessOps).cursorPos ∧
        (applyOps TextArea.new c7WitnessOps).cursorPos < e.stop)) := by
  have hpayload : ∀ s, Op.insertElement s ∈ c7WitnessOps → '\n' ∉ s := by
    intro s hs
    simp only [c7WitnessOps, List.mem_cons, List.not_mem_nil, or_false] at hs
    rcases hs with hs | hs | hs | hs <;> first
      | (injection hs with hs2; subst hs2; decide)
      | exact absurd hs (by simp)
  exact ⟨hpayload, c7_element_boundary c7WitnessOps hpayload⟩

end ComposerProofs

namespace RendererProofs

open Chunking Streaming MessageModel RendererCore RendererCore.TerminalRenderer

theorem withState_state {L : Type} (c : StreamingController L) (kind : StreamKind)
    (s : StreamState L) : (c.withState kind s).state kind = s := by
  cases kind <;> rfl

theorem commitCompleteLines_buffer {L : Type} (env : RenderEnv L)
    (c : MarkdownStreamCollector) :
    (c.commitCompleteLines env).1.buffer = c.buffer := by
  simp only [MarkdownStreamCollector.commitCompleteLines]
  split
  · rfl
  · split <;> rfl

theorem controllerPush_buffer {L : Type} (env : RenderEnv L)
    (c : StreamingController L) (kind : StreamKind) (content : List Char) (now : Nat) :
    ((StreamingController.push env c kind content now).state kind).collector.buffer =
      (c.state kind).collector.buffer ++ content := by
  unfold StreamingController.push
  split
  · next h => subst h; simp
  · rw [withState_state]
    split
    · dsimp only
      split <;>
        simp [StreamState.enqueue, commitCompleteLines_buffer,
          MarkdownStreamCollector.pushDelta]
    · simp [MarkdownStreamCollector.pushDelta]

theorem flushKind_state_other {L : Type} (env : RenderEnv L) (c : StreamingController L)
    (k k2 : StreamKind) (now : Nat) (h : k ≠ k2) :
    ((StreamingController.flushKind env c k2 now).1).state k = c.state k := by
  cases k <;> cases k2 <;> first
    | exact absurd rfl h
    | rfl

theorem insertOrDefer_streamingController {L : Type} (r : TerminalRenderer L)
    (lines : List L) :
    (r.insertOrDeferHistoryLines lines).streamingController = r.streamingController := by
  unfold TerminalRenderer.insertOrDeferHistoryLines
  split
  · rfl
  · split <;> rfl

theorem insertOrDefer_streamingOpen {L : Type} (r : TerminalRenderer L)
    (lines : List L) :
    (r.insertOrDeferHistoryLines lines).streamingOpen = r.streamingOpen := by
  unfold TerminalRenderer.insertOrDeferHistoryLines
  split
  · rfl
  · split <;> rfl

theorem insertOrDefer_lastStreamKind {L : Type} (r : TerminalRenderer L)
    (lines : List L) :
    (r.insertOrDeferHistoryLines lines).lastStreamKind = r.lastStreamKind := by
  unfold TerminalRenderer.insertOrDeferHistoryLines
  split
  · rfl
  · split <;> rfl

theorem mark_streamingController {L : Type} (r : TerminalRenderer L) :
    r.markActiveStreamedToScrollback.streamingController = r.streamingController := by
  unfold TerminalRenderer.markActiveStreamedToScrollback
  split <;> rfl

theorem mark_streamingOpen {L : Type} (r : TerminalRenderer L) :
    r.markActiveStreamedToScrollback.streamingOpen = r.streamingOpen := by
  unfold TerminalRenderer.markActiveStreamedToScrollback
  split <;> rfl

theorem mark_lastStreamKind {L : Type} (r : TerminalRenderer L) :
    r.markActiveStreamedToScrollback.lastStreamKind = r.lastStreamKind := by
  unfold TerminalRenderer.markActiveStreamedToScrollback
  split <;> rfl

theorem startNewMessage_streamingOpen {L : Type} (env : RendererEnv L)
    (r : TerminalRenderer L) (now : Nat) :
    (startNewMessage env r now).streamingOpen = true := rfl

theorem startNewMessage_activeMessage {L : Type} (env : RendererEnv L)
    (r : TerminalRenderer L) (now : Nat) :
    (startNewMessage env r now).transcript.activeMessage = some LiveMessage.new := rfl

theorem startNewMessage_lastStreamKind {L : Type} (env : RendererEnv L)
    (r : TerminalRenderer L) (now : Nat) :
    (startNewMessage env r now).lastStreamKind = none := rfl

theorem startNewMessage_buffer {L : Type} (env : RendererEnv L)
    (r : TerminalRenderer L) (now : Nat) (kind : StreamKind) :
    (((startNewMessage env r now).streamingController.state kind).collector).buffer
      = [] := by
  cases kind <;> rfl

theorem queueTextDelta_spec {L : Type} (env : RendererEnv L) (r : TerminalRenderer L)
    (content : List Char) (now : Nat) :
    (r.streamingOpen = false ∧ r.transcript.activeMessage = none →
      (queueTextDelta env r content now).streamingOpen = true ∧
      ((queueTextDelta env r content now).transcript.activeMessage).isSome = true ∧
      (((queueTextDelta env r content now).streamingController.state
          StreamKind.text).collector).buffer = content) ∧
    (r.streamingOpen = false ∧ (r.transcript.activeMessage).isSome = true →
      queueTextDelta env r content now = r) ∧
    (r.streamingOpen = true →
      (queueTextDelta env r content now).streamingOpen = true ∧
      (queueTextDelta env r content now).lastStreamKind = some StreamKind.text ∧
      (((queueTextDelta env r content now).streamingController.state
          StreamKind.text).collector).buffer
        = ((r.streamingController.state StreamKind.text).collector).buffer ++ content) := by
  refine ⟨?_, ?_, ?_⟩
  · rintro ⟨hOpen, hAct⟩
    simp only [TerminalRenderer.queueTextDelta, hOpen, hAct, Option.isNone_none,
      Bool.not_false, if_true, startNewMessage_lastStreamKind]
    rw [if_neg (fun hc => Option.noConfusion hc)]
    refine ⟨startNewMessage_streamingOpen env r now, ?_, ?_⟩
    · rw [startNewMessage_activeMessage]; rfl
    · rw [controllerPush_buffer, startNewMessage_buffer, List.nil_append]
  · rintro ⟨hOpen, hAct⟩
    cases hA : r.transcript.activeMessage with
    | none => rw [hA] at hAct; exact absurd hAct (by decide)
    | some m =>
      simp [TerminalRenderer.queueTextDelta, hOpen, hA]
  · intro hOpen
    simp only [TerminalRenderer.queueTextDelta, hOpen, Bool.not_true, Bool.false_eq_true,
      if_false]
    by_cases hk : r.lastStreamKind = some StreamKind.thinking
    · rw [if_pos hk]
      by_cases he :
          (r.streamingController.flushKind env.toRenderEnv StreamKind.thinking now).2.isEmpty
            = true
      · rw [if_pos he]
        refine ⟨?_, ?_, ?_⟩ <;>
          simp [controllerPush_buffer, mark_streamingController,
            insertOrDefer_streamingController, mark_streamingOpen,
            insertOrDefer_streamingOpen, flushKind_state_other, hOpen]
      · rw [if_neg he]
        refine ⟨?_, ?_, ?_⟩ <;>
          simp [controllerPush_buffer, mark_streamingController,
            insertOrDefer_streamingController, mark_streamingOpen,
            insertOrDefer_streamingOpen, flushKind_state_other, hOpen]
    · rw [if_neg hk]
      refine ⟨?_, ?_, ?_⟩ <;> simp [controllerPush_buffer, hOpen]

theorem queueThinkingDelta_spec {L : Type} (env : RendererEnv L) (r : TerminalRenderer L)
    (content : List Char) (now : Nat) :
    (r.streamingOpen = false ∧ r.transcript.activeMessage = none →
      (queueThinkingDelta env r content now).streamingOpen = true ∧
      ((queueThinkingDelta env r content now).transcript.activeMessage).isSome = true ∧
      (((queueThinkingDelta env r content now).streamingController.state
          StreamKind.thinking).collector).buffer = content) ∧
    (r.streamingOpen = false ∧ (r.transcript.activeMessage).isSome = true →
      queueThinkingDelta env r content now = r) ∧
    (r.streamingOpen = true →
      (queueThinkingDelta env r content now).streamingOpen = true ∧
      (queueThinkingDelta env r content now).lastStreamKind = some StreamKind.thinking ∧
      (((queueThinkingDelta env r content now).streamingController.state
          StreamKind.thinking).collector).buffer
        = ((r.streamingController.state StreamKind.thinking).collector).buffer ++ content) := by
  refine ⟨?_, ?_, ?_⟩
  · rintro ⟨hOpen, hAct⟩
    simp only [TerminalRenderer.queueThinkingDelta, hOpen, hAct, Option.isNone_none,
      Bool.not_false, if_true, startNewMessage_lastStreamKind]
    rw [if_neg (fun hc => Option.noConfusion hc)]
    refine ⟨startNewMessage_streamingOpen env r now, ?_, ?_⟩
    · rw [startNewMessage_activeMessage]; rfl
    · rw [controllerPush_buffer, startNewMessage_buffer, List.nil_append]
  · rintro ⟨hOpen, hAct⟩
    cases hA : r.transcript.activeMessage with
    | none => rw [hA] at hAct; exact absurd hAct (by decide)
    | some m =>
      simp [TerminalRenderer.queueThinkingDelta, hOpen, hA]
  · intro hOpen
    simp only [TerminalRenderer.queueThinkingDelta, hOpen, Bool.not_true,
      Bool.false_eq_true, if_false]
    by_cases hk : r.lastStreamKind = some StreamKind.text
    · rw [if_pos hk]
      by_cases he :
          (r.streamingController.flushKind env.toRenderEnv StreamKind.text now).2.isEmpty
            = true
      · rw [if_pos he]
        refine ⟨?_, ?_, ?_⟩ <;>
          simp [controllerPush_buffer, mark_streamingController,
            insertOrDefer_streamingController, mark_streamingOpen,
            insertOrDefer_streamingOpen, flushKind_state_other, hOpen]
      · rw [if_neg he]
        refine ⟨?_, ?_, ?_⟩ <;>
          simp [controllerPush_buffer, mark_streamingController,
            insertOrDefer_streamingController, mark_streamingOpen,
            insertOrDefer_streamingOpen, flushKind_state_other, hOpen]
    · rw [if_neg hk]
      refine ⟨?_, ?_, ?_⟩ <;> simp [controllerPush_buffer, hOpen]

/-- **C9.** Delta protocol recovery: for every renderer state and every text or
thinking delta, (i) a delta arriving when streaming is not open and no active
message exists causes a synthetic stream start and is then processed — streaming
becomes open, an active message exists, and the delta's whole content sits in
the freshly cleared collector of its stream kind; (ii) a delta arriving when
streaming is not open but an active message exists is dropped, leaving the
renderer state (transcript, controller, flags, history buffers) entirely
unchanged; (iii) a delta arriving while streaming is open is always accepted —
streaming stays open, the delta's kind becomes the last stream kind, and the
content is appended to that kind's collector buffer. -/
theorem c9_delta_protocol_recovery {L : Type} (env : RendererEnv L)
    (r : TerminalRenderer L) (kind : StreamKind) (content : List Char) (now : Nat) :
    (r.streamingOpen = false ∧ r.transcript.activeMessage = none →
      (TerminalRenderer.queueDelta env r kind content now).streamingOpen = true ∧
      ((TerminalRenderer.queueDelta env r kind content now).transcript.activeMessage).isSome
        = true ∧
      (((TerminalRenderer.queueDelta env r kind content now).streamingController.state
          kind).collector).buffer = content) ∧
    (r.streamingOpen = false ∧ (r.transcript.activeMessage).isSome = true →
      TerminalRenderer.queueDelta env r kind content now = r) ∧
    (r.streamingOpen = true →
      (TerminalRenderer.queueDelta env r kind content now).streamingOpen = true ∧
      (TerminalRenderer.queueDelta env r kind content now).lastStreamKind = some kind ∧
      (((TerminalRenderer.queueDelta env r kind content now).streamingController.state
          kind).collector).buffer
        = ((r.streamingController.state kind).collector).buffer ++ content) := by
  cases kind
  · exact queueTextDelta_spec env r content now
  · exact queueThinkingDelta_spec env r content now

/-- Witness for `c9_delta_protocol_recovery`: a text delta sent to the freshly
constructed renderer (streaming closed, no active message) opens streaming,
creates an active message, and lands in the text collector. -/
theorem c9_delta_protocol_recovery_witness :
    ((TerminalRenderer.new Nat).streamingOpen = false ∧
      (TerminalRenderer.new Nat).transcript.activeMessage = none) ∧
    ((TerminalRenderer.queueDelta renvN (TerminalRenderer.new Nat) StreamKind.text
        ['h', 'i'] 0).streamingOpen = true ∧
      ((TerminalRenderer.queueDelta renvN (TerminalRenderer.new Nat) StreamKind.text
        ['h', 'i'] 0).transcript.activeMessage).isSome = true ∧
      (((TerminalRenderer.queueDelta renvN (TerminalRenderer.new Nat) StreamKind.text
        ['h', 'i'] 0).streamingController.state StreamKind.text).collector).buffer
        = ['h', 'i']) :=
  ⟨⟨rfl, rfl⟩,
    (c9_delta_protocol_recovery renvN (TerminalRenderer.new Nat) StreamKind.text
      ['h', 'i'] 0).1 ⟨rfl, rfl⟩⟩

end RendererProofs
